import Mathlib

/-!
Verification development for the english-connections-core content pipeline.

The development shallowly embeds the puzzle schema validator
(`validatePuzzle` and its helper checks), the remote-listing helper
(`listRemoteKeys`), and the pure decision cores of the upload and promote
scripts (`runUploadScript`, `runPromoteScript`).  JavaScript runtime values
are modelled by `JValue`; JS `Set`/`Map` objects are modelled as
insertion-ordered lists / association lists, which matches their iteration
order; the S3 client is reified as the list of mutating calls a run issues;
`new Date().toISOString()` is passed in as an explicit `now` argument; the
pretty-printed JSON body of the manifest is abstracted as the structured
manifest value (its exact pretty-printing is declared out of scope by the
design document).
-/

/-- Model of a JavaScript runtime value as consumed by the validator.
Only the distinctions the source makes are kept: strings, arrays, plain
objects (association lists of fields), and a catch-all `other` for every
remaining primitive (numbers, booleans, null), none of which is a string,
an array or a record. -/
inductive JValue where
  | str (s : String)
  | arr (elems : List JValue)
  | obj (fields : List (String × JValue))
  | other

/-- Property access `record.key` on a plain object: `undefined` is `none`. -/
def jGet (fields : List (String × JValue)) (key : String) : Option JValue :=
  List.lookup key fields

/-- A single validation issue, exactly as in the source. -/
structure ValidationIssue where
  field : String
  message : String
deriving DecidableEq, Repr

/-- The validation context: an optional expected date derived from the
source filename. -/
structure ValidationContext where
  expectedDate : Option String

/-- `ROOT_FIELDS` constant (a JS `Set`, modelled as its insertion-ordered
element list). -/
def ROOT_FIELDS : List String := ["date", "categories", "startGrid"]

/-- `CATEGORY_COLORS` constant (a JS `Set`, modelled as its
insertion-ordered element list). -/
def CATEGORY_COLORS : List String := ["yellow", "green", "blue", "purple"]

/-- The test `DATE_REGEX.test s` for `/^\d\x7b4\x7d-\d\x7b2\x7d-\d\x7b2\x7d$/u`:
ten characters, digits in positions 0-3, 5-6 and 8-9, hyphens at 4 and 7. -/
def matchesDateRegex (s : String) : Bool :=
  match s.data with
  | [y1, y2, y3, y4, h1, m1, m2, h2, d1, d2] =>
    y1.isDigit && y2.isDigit && y3.isDigit && y4.isDigit && h1 == '-' &&
      m1.isDigit && m2.isDigit && h2 == '-' && d1.isDigit && d2.isDigit
  | _ => false

/-- JS `String.prototype.trim`, modelled over the character list (the
built-in `String.trim` is not kernel-reducible): drop whitespace from
both ends. -/
def jsTrim (s : String) : String :=
  ⟨((s.data.dropWhile Char.isWhitespace).reverse.dropWhile Char.isWhitespace).reverse⟩

/-- JS `String.prototype.toUpperCase`, modelled character-wise (the
documents are ASCII; the built-in `String.toUpper` is not
kernel-reducible). -/
def jsToUpper (s : String) : String := ⟨s.data.map Char.toUpper⟩

/-- `isRecord`: a non-null non-array object. -/
def isRecord : JValue → Bool
  | .obj _ => true
  | _ => false

/-- `isNonEmptyString` applied to a possibly-undefined value. -/
def isNonEmptyString : Option JValue → Bool
  | some (.str s) => (jsTrim s).length > 0
  | _ => false

/-- One part of a dotted/bracketed field path. -/
inductive PathPart where
  | s (v : String)
  | n (v : Nat)

/-- Rendering of the path parts after the first: a number becomes
`[index]`, a string becomes `.subfield`. -/
def fieldPathRest : List PathPart → String
  | [] => ""
  | .n v :: rest => "[" ++ toString v ++ "]" ++ fieldPathRest rest
  | .s v :: rest => "." ++ v ++ fieldPathRest rest

/-- `fieldPath`: join the rendered parts; the part at position 0 is
rendered bare when it is a string. -/
def fieldPath : List PathPart → String
  | [] => ""
  | .n v :: rest => "[" ++ toString v ++ "]" ++ fieldPathRest rest
  | .s v :: rest => v ++ fieldPathRest rest

/-- `validateRootKeys`: one issue per top-level key outside `ROOT_FIELDS`,
in key order. -/
def validateRootKeys : List (String × JValue) → List ValidationIssue
  | [] => []
  | (key, _) :: rest =>
    (if ROOT_FIELDS.contains key then []
     else [⟨key, "Unexpected property."⟩]) ++ validateRootKeys rest

/-- State threaded through the `startGrid` entry loop: the issues pushed
so far and the `seen` set of trimmed entries (insertion-ordered). -/
structure GridState where
  issues : List ValidationIssue
  seen : List String

/-- The body of the `value.forEach` loop in `validateStartingOrder`. -/
def startGridEntryStep (st : GridState) (index : Nat) (entry : JValue) : GridState :=
  match entry with
  | .str s =>
    let trimmed := jsTrim s
    if trimmed.length = 0 then
      { st with issues := st.issues ++
          [⟨fieldPath [.s "startGrid", .n index], "startGrid entries cannot be empty."⟩] }
    else
      let st :=
        if trimmed ≠ s then
          { st with issues := st.issues ++
              [⟨fieldPath [.s "startGrid", .n index],
                "startGrid entries should not have leading or trailing whitespace."⟩] }
        else st
      let st :=
        if trimmed ≠ jsToUpper trimmed then
          { st with issues := st.issues ++
              [⟨fieldPath [.s "startGrid", .n index],
                "Word \x27" ++ trimmed ++ "\x27 should be uppercase."⟩] }
        else st
      if st.seen.contains trimmed then
        { st with issues := st.issues ++
            [⟨fieldPath [.s "startGrid", .n index],
              "Duplicate word \x27" ++ trimmed ++ "\x27 in startGrid."⟩] }
      else { st with seen := st.seen ++ [trimmed] }
  | _ =>
    { st with issues := st.issues ++
        [⟨fieldPath [.s "startGrid", .n index], "Entries in startGrid must be strings."⟩] }

/-- The `value.forEach` loop of `validateStartingOrder`, with its running
index made explicit. -/
def startGridLoop (st : GridState) (index : Nat) : List JValue → GridState
  | [] => st
  | e :: rest => startGridLoop (startGridEntryStep st index e) (index + 1) rest

/-- `validateStartingOrder`. -/
def validateStartingOrder (value : Option JValue) (expectedWords : List String) :
    List ValidationIssue :=
  match value with
  | none => [⟨"startGrid", "Missing \x27startGrid\x27. Expected an array of 16 words."⟩]
  | some (.arr entries) =>
    let st := startGridLoop (GridState.mk [] []) 0 entries
    let issues := st.issues
    let issues :=
      if expectedWords.length > 0 then
        let issues :=
          if st.seen.length ≠ expectedWords.length then
            issues ++ [⟨"startGrid",
              "startGrid should list " ++ toString expectedWords.length ++
                " unique words; found " ++ toString st.seen.length ++ "."⟩]
          else issues
        let missing := expectedWords.filter fun w => !st.seen.contains w
        if missing.length > 0 then
          issues ++ [⟨"startGrid",
            "startGrid is missing words: " ++ String.intercalate ", " missing ++ "."⟩]
        else issues
      else issues
    let extras := st.seen.filter fun w =>
      expectedWords.length > 0 && !expectedWords.contains w
    if extras.length > 0 then
      issues ++ [⟨"startGrid",
        "startGrid includes words that are not in any category: " ++
          String.intercalate ", " extras ++ "."⟩]
    else issues
  | some _ => [⟨"startGrid", "startGrid must be an array of strings."⟩]

/-- JS `Map.set`: replace the value in place if the key is present,
otherwise append (insertion order preserved, as JS `Map` iteration does). -/
def mapSet (m : List (String × Nat)) (k : String) (v : Nat) : List (String × Nat) :=
  match List.lookup k m with
  | some _ => m.map fun kv => if kv.1 = k then (k, v) else kv
  | none => m ++ [(k, v)]

/-- JS `Set.add` on an insertion-ordered element list. -/
def insertSet (xs : List String) (x : String) : List String :=
  if xs.contains x then xs else xs ++ [x]

/-- State threaded through the word loop of `validateCategoryWords`:
issues, the category-local word set, the cross-category word-to-category
map, and the global word pool. -/
structure WordsState where
  issues : List ValidationIssue
  localWords : List String
  seenWords : List (String × Nat)
  globalWords : List String

/-- The body of the `value.forEach` loop in `validateCategoryWords`. -/
def categoryWordStep (categoryIndex : Nat) (st : WordsState) (wordIndex : Nat)
    (w : JValue) : WordsState :=
  match w with
  | .str s =>
    let trimmed := jsTrim s
    if trimmed.length = 0 then
      { st with issues := st.issues ++
          [⟨fieldPath [.s "categories", .n categoryIndex, .s "words", .n wordIndex],
            "Word cannot be empty."⟩] }
    else
      let st :=
        if trimmed ≠ s then
          { st with issues := st.issues ++
              [⟨fieldPath [.s "categories", .n categoryIndex, .s "words", .n wordIndex],
                "Word should not contain leading or trailing whitespace."⟩] }
        else st
      let st :=
        if trimmed ≠ jsToUpper trimmed then
          { st with issues := st.issues ++
              [⟨fieldPath [.s "categories", .n categoryIndex, .s "words", .n wordIndex],
                "Word \x27" ++ trimmed ++ "\x27 should be uppercase."⟩] }
        else st
      let st :=
        if st.localWords.contains trimmed then
          { st with issues := st.issues ++
              [⟨fieldPath [.s "categories", .n categoryIndex, .s "words", .n wordIndex],
                "Duplicate word \x27" ++ trimmed ++ "\x27 within category."⟩] }
        else { st with localWords := st.localWords ++ [trimmed] }
      let st : WordsState :=
        match List.lookup trimmed st.seenWords with
        | some existingCategoryIndex =>
          if existingCategoryIndex ≠ categoryIndex then
            { st with issues := st.issues ++
                [⟨fieldPath [.s "categories", .n categoryIndex, .s "words", .n wordIndex],
                  "Word \x27" ++ trimmed ++ "\x27 already assigned to category index " ++
                    toString existingCategoryIndex ++ "."⟩] }
          else { st with seenWords := mapSet st.seenWords trimmed categoryIndex }
        | none => { st with seenWords := mapSet st.seenWords trimmed categoryIndex }
      { st with globalWords := insertSet st.globalWords trimmed }
  | _ =>
    { st with issues := st.issues ++
        [⟨fieldPath [.s "categories", .n categoryIndex, .s "words", .n wordIndex],
          "Each word must be a string."⟩] }

/-- The `value.forEach` loop of `validateCategoryWords`, index explicit. -/
def categoryWordsLoop (categoryIndex : Nat) (st : WordsState) (wordIndex : Nat) :
    List JValue → WordsState
  | [] => st
  | w :: rest =>
    categoryWordsLoop categoryIndex (categoryWordStep categoryIndex st wordIndex w)
      (wordIndex + 1) rest

/-- `validateCategoryWords`: returns its issues together with the updated
`seenWords` map and global word pool (which the source mutates through the
references it receives). -/
def validateCategoryWords (value : Option JValue) (categoryIndex : Nat)
    (seenWords : List (String × Nat)) (globalWords : List String) :
    List ValidationIssue × List (String × Nat) × List String :=
  match value with
  | some (.arr ws) =>
    if ws.length ≠ 4 then
      ([⟨fieldPath [.s "categories", .n categoryIndex, .s "words"],
          "Each category must supply exactly 4 words (received " ++
            toString ws.length ++ ")."⟩], seenWords, globalWords)
    else
      let st := categoryWordsLoop categoryIndex (WordsState.mk [] [] seenWords globalWords) 0 ws
      (st.issues, st.seenWords, st.globalWords)
  | _ =>
    ([⟨fieldPath [.s "categories", .n categoryIndex, .s "words"],
        "Category words must be an array of strings."⟩], seenWords, globalWords)

/-- `validateCategoryColor`. -/
def validateCategoryColor (value : Option JValue) (index : Nat) :
    Option ValidationIssue :=
  match value with
  | some (.str s) =>
    if CATEGORY_COLORS.contains s then none
    else some ⟨fieldPath [.s "categories", .n index, .s "color"],
      "Color must be one of " ++ String.intercalate ", " CATEGORY_COLORS ++ "."⟩
  | _ => some ⟨fieldPath [.s "categories", .n index, .s "color"],
      "Color must be one of " ++ String.intercalate ", " CATEGORY_COLORS ++ "."⟩

/-- `validateCategoryId`: returns the issue, if any, together with the
updated `seen` id set. -/
def validateCategoryId (value : Option JValue) (index : Nat) (seen : List String) :
    Option ValidationIssue × List String :=
  match value with
  | some (.str s) =>
    if (jsTrim s).length = 0 then
      (some ⟨fieldPath [.s "categories", .n index, .s "id"],
        "Category id must be a non-empty string."⟩, seen)
    else if seen.contains s then
      (some ⟨fieldPath [.s "categories", .n index, .s "id"],
        "Duplicate category id \x27" ++ s ++ "\x27."⟩, seen)
    else (none, seen ++ [s])
  | _ =>
    (some ⟨fieldPath [.s "categories", .n index, .s "id"],
      "Category id must be a non-empty string."⟩, seen)

/-- State threaded through the per-category loop of `validateCategories`. -/
structure CatState where
  issues : List ValidationIssue
  seenIds : List String
  seenWords : List (String × Nat)
  colorCounts : List (String × Nat)
  words : List String

/-- The body of the `value.forEach` loop in `validateCategories`. -/
def processCategory (st : CatState) (categoryIndex : Nat) (category : JValue) :
    CatState :=
  match category with
  | .obj fields =>
    let idResult := validateCategoryId (jGet fields "id") categoryIndex st.seenIds
    let st := { st with
      seenIds := idResult.2
      issues := st.issues ++ (match idResult.1 with | some i => [i] | none => []) }
    let st :=
      if isNonEmptyString (jGet fields "title") then st
      else { st with issues := st.issues ++
        [⟨fieldPath [.s "categories", .n categoryIndex, .s "title"],
          "Category title must be a non-empty string."⟩] }
    let st : CatState :=
      match validateCategoryColor (jGet fields "color") categoryIndex with
      | some i => { st with issues := st.issues ++ [i] }
      | none =>
        match jGet fields "color" with
        | some (.str c) =>
          { st with colorCounts :=
              mapSet st.colorCounts c ((List.lookup c st.colorCounts).getD 0 + 1) }
        | _ => st
    let wordsResult :=
      validateCategoryWords (jGet fields "words") categoryIndex st.seenWords st.words
    { st with
      issues := st.issues ++ wordsResult.1
      seenWords := wordsResult.2.1
      words := wordsResult.2.2 }
  | _ =>
    { st with issues := st.issues ++
        [⟨fieldPath [.s "categories", .n categoryIndex], "Each category must be an object."⟩] }

/-- The `value.forEach` loop of `validateCategories`, index explicit. -/
def categoriesLoop (st : CatState) (index : Nat) : List JValue → CatState
  | [] => st
  | c :: rest => categoriesLoop (processCategory st index c) (index + 1) rest

/-- The message of the per-color count issue of `validateCategories`. -/
def colorCountMsg (color : String) (count : Nat) : String :=
  "Expected exactly one \x27" ++ color ++ "\x27 category; found " ++ toString count ++ "."

/-- `validateCategories`: returns its issues and the global word pool. -/
def validateCategories (value : Option JValue) :
    List ValidationIssue × List String :=
  match value with
  | some (.arr cats) =>
    let issues0 :=
      if cats.length ≠ 4 then
        [⟨"categories", "Expected exactly 4 categories, received " ++
            toString cats.length ++ "."⟩]
      else []
    let st := categoriesLoop (CatState.mk issues0 [] [] [] []) 0 cats
    let issues := st.issues
    let issues :=
      if st.words.length ≠ 16 then
        issues ++ [⟨"categories", "Categories should define 16 unique words; found " ++
            toString st.words.length ++ "."⟩]
      else issues
    let issues := issues ++ CATEGORY_COLORS.filterMap fun color =>
      let count := (List.lookup color st.colorCounts).getD 0
      if count ≠ 1 then some ⟨"categories", colorCountMsg color count⟩ else none
    (issues, st.words)
  | _ => ([⟨"categories",
      "Expected \x27categories\x27 to be an array of category definitions."⟩], [])

/-- `validateDate`. -/
def validateDate (value : Option JValue) (context : ValidationContext) :
    List ValidationIssue :=
  match value with
  | some (.str s) =>
    if !matchesDateRegex s then
      [⟨"date", "Date must follow YYYY-MM-DD (e.g., 2024-01-01)."⟩]
    else
      match context.expectedDate with
      | some e =>
        if e ≠ "" ∧ e ≠ s then
          [⟨"date", "Date (" ++ s ++ ") does not match filename (" ++ e ++ ")."⟩]
        else []
      | none => []
  | _ => [⟨"date", "Expected \x27date\x27 to be a string in YYYY-MM-DD format."⟩]

/-- `validatePuzzle`: the top-level validator.  It is a total function
(the source never throws); the four independent checks are concatenated. -/
def validatePuzzle (rawPuzzle : JValue) (context : ValidationContext) :
    List ValidationIssue :=
  match rawPuzzle with
  | .obj fields =>
    validateDate (jGet fields "date") context ++
      (validateCategories (jGet fields "categories")).1 ++
      validateStartingOrder (jGet fields "startGrid")
        (validateCategories (jGet fields "categories")).2 ++
      validateRootKeys fields
  | _ => [⟨"", "Puzzle must be an object."⟩]

/-- `REGION` constant. -/
def REGION : String := "sa-east-1"

/-- The two content environments (`ContentEnv`). -/
inductive ContentEnv where
  | dev
  | prod
deriving DecidableEq, Repr

/-- The `BUCKETS` table. -/
def bucketOf : ContentEnv → String
  | .dev => "econn-content-dev"
  | .prod => "econn-content-prod"

/-- `PUZZLE_PREFIX` constant. -/
def puzzleKeyPre : String := "puzzles/"

/-- `MANIFEST_KEY` constant. -/
def MANIFEST_KEY : String := "manifest.json"

/-- One page of a `ListObjectsV2` response: the (possibly absent) keys of
its `Contents`, the `IsTruncated` flag, and the `NextContinuationToken`. -/
structure ListPage where
  contents : List (Option String)
  isTruncated : Bool
  nextContinuationToken : Option String

/-- The keys a page contributes:
`(response.Contents ?? []).map(o => o.Key).filter(Boolean)`; note that
`Boolean` drops absent keys and also the empty-string key. -/
def pageKeys (p : ListPage) : List String :=
  (p.contents.filterMap id).filter fun k => k ≠ ""

/-- The `do ... while (continuationToken)` loop of `listRemoteKeys`:
the store is modelled as the sequence of pages successive requests
return; the loop continues into the next page exactly when the current
page is truncated and carries a *truthy* continuation token — like the
`Boolean` filter on keys, `while (continuationToken)` stops on the falsy
empty-string token as well as on `undefined`. -/
def listRemoteKeysGo : List String → List ListPage → List String
  | acc, [] => acc
  | acc, p :: rest =>
    let acc := (pageKeys p).foldl insertSet acc
    match p.isTruncated, p.nextContinuationToken with
    | true, some t => if t ≠ "" then listRemoteKeysGo acc rest else acc
    | _, _ => acc

/-- `listRemoteKeys`: accumulate every page's keys into one set. -/
def listRemoteKeys (pages : List ListPage) : List String :=
  listRemoteKeysGo [] pages

/-- The structured body of a put call: either the raw text of a puzzle
file, or the manifest (whose JSON pretty-printing is out of scope). -/
inductive S3Body where
  | text (s : String)
  | manifestJson (generatedAt : String) (latestPuzzle : Option String)
      (puzzles : List (String × String))
deriving DecidableEq, Repr

/-- A mutating S3 call, in the order the scripts issue them. -/
inductive S3Call where
  | putObject (bucket : String) (key : String) (body : S3Body)
      (contentType : String) (cacheControl : String)
  | copyObject (bucket : String) (key : String) (copySource : String)
deriving DecidableEq, Repr

/-- `path.basename` for the slash-separated paths the scripts use. -/
def baseName (p : String) : String :=
  String.mk ((p.data.splitOn '/').getLastD p.data)

/-- A local puzzle file after resolution, reading and JSON parsing: its
path together with the parsed `date` field and the raw text contents.
This stands for the file system the script reads through `fs.readFileSync`
and `JSON.parse`. -/
structure LocalFile where
  filePath : String
  date : String
  contents : String
deriving DecidableEq, Repr

/-- `PuzzleEntry`. -/
structure PuzzleEntry where
  filePath : String
  key : String
  date : String
  contents : String
deriving DecidableEq, Repr

/-- `toPuzzleEntry`: derive the remote key from the filename. -/
def toPuzzleEntry (f : LocalFile) : PuzzleEntry :=
  ⟨f.filePath, puzzleKeyPre ++ baseName f.filePath, f.date, f.contents⟩

/-- One entry of the manifest. -/
structure ManifestEntry where
  date : String
  path : String
deriving DecidableEq, Repr

/-- `ManifestFile`. -/
structure ManifestFile where
  generatedAt : String
  latestPuzzle : Option String
  puzzles : List ManifestEntry
deriving DecidableEq, Repr

/-- `buildManifest`: map entries to `(date, path)` pairs, sort ascending
by date (`localeCompare` on the all-ASCII `YYYY-MM-DD` dates coincides
with lexicographic order; JS sort is stable, as is `List.mergeSort`),
and record the chronologically last date, when any. -/
def buildManifest (now : String) (entries : List PuzzleEntry) : ManifestFile :=
  let puzzles := (entries.map fun e => ManifestEntry.mk e.date e.key).mergeSort
    fun a b => decide (a.date ≤ b.date)
  { generatedAt := now
    latestPuzzle := puzzles.getLast?.map fun e => e.date
    puzzles := puzzles }

/-- The body put to `manifest.json`, as a structured value. -/
def manifestBody (m : ManifestFile) : S3Body :=
  .manifestJson m.generatedAt m.latestPuzzle (m.puzzles.map fun e => (e.date, e.path))

/-- An issue tagged with the originating file (`ValidateScriptIssue`). -/
structure ScriptIssue where
  file : String
  field : String
  message : String
deriving DecidableEq, Repr

/-- The result of `runValidateScript`: the resolved files (carried here
with their parsed contents, standing for the later `fs` reads of
`toPuzzleEntry`) and the flattened, file-tagged issue list. -/
structure ValidateScriptResult where
  filesChecked : List LocalFile
  issues : List ScriptIssue
deriving DecidableEq, Repr

/-- `UploadScriptResult`. -/
structure UploadScriptResult where
  bucket : String
  total : Nat
  uploaded : List String
  skipped : List String
  remoteOnly : List String
  manifestUploaded : Bool
  dryRun : Bool
deriving DecidableEq, Repr

/-- The error message thrown when validation issues exist (lines building
`summary` in `runUploadScript`); only called with a non-empty list. -/
def uploadIssueSummary (issues : List ScriptIssue) : String :=
  match issues with
  | [] => ""
  | first :: _ =>
    let fieldLabel := if (jsTrim first.field).length > 0 then first.field else "(root)"
    toString issues.length ++ " validation issue" ++
      (if issues.length = 1 then "" else "s") ++ " detected. " ++
      fieldLabel ++ ": " ++ first.message

/-- `runUploadScript`, as a pure function of the validation outcome, the
chosen environment, the dry-run flag, the key set the remote listing
returns, and the timestamp.  The first component is the returned result
(or the thrown error message); the second is the list of mutating S3
calls the run issues, in order. -/
def runUploadScript (validation : ValidateScriptResult) (env : ContentEnv)
    (dryRun : Bool) (remoteKeys : List String) (now : String) :
    Except String UploadScriptResult × List S3Call :=
  let bucket := bucketOf env
  if validation.issues.length > 0 then
    (.error (uploadIssueSummary validation.issues), [])
  else if validation.filesChecked.length = 0 then
    (.ok ⟨bucket, 0, [], [], [], false, dryRun⟩, [])
  else
    let entries := validation.filesChecked.map toPuzzleEntry
    let localKeys := entries.map fun e => e.key
    let missing := entries.filter fun e => !remoteKeys.contains e.key
    let alreadyPresent := entries.filter fun e => remoteKeys.contains e.key
    let remoteOnly := remoteKeys.filter fun k => !localKeys.contains k
    let uploaded := if dryRun then [] else missing.map fun e => e.key
    let skipped := alreadyPresent.map fun e => e.key
    let puzzlePutCalls :=
      if dryRun then [] else missing.map fun e =>
        S3Call.putObject bucket e.key (.text e.contents) "application/json"
          "public, max-age=300"
    let manifest := buildManifest now entries
    let manifestPutCalls :=
      if dryRun then [] else
        [S3Call.putObject bucket MANIFEST_KEY (manifestBody manifest)
          "application/json" "public, max-age=120"]
    (.ok { bucket := bucket
           total := entries.length
           uploaded := if dryRun then missing.map (fun e => e.key) else uploaded
           skipped := skipped
           remoteOnly := remoteOnly
           manifestUploaded := !dryRun
           dryRun := dryRun },
     puzzlePutCalls ++ manifestPutCalls)

/-- A character `encodeURIComponent` leaves unescaped. -/
def isUnreservedChar (c : Char) : Bool :=
  c.isAlphanum || c == '-' || c == '_' || c == '.' || c == '!' ||
    c == '~' || c == '*' || c == '\x27' || c == '(' || c == ')'

/-- An uppercase hexadecimal digit. -/
def hexDigit (n : Nat) : Char :=
  if n < 10 then Char.ofNat (48 + n) else Char.ofNat (55 + n)

/-- Percent-encoding of one byte. -/
def percentEncodeByte (b : Nat) : String :=
  String.mk ['%', hexDigit (b / 16), hexDigit (b % 16)]

/-- `encodeURIComponent`: unreserved characters pass through, everything
else is percent-encoded byte-wise over its UTF-8 encoding. -/
def encodeURIComponent (s : String) : String :=
  String.join (s.data.map fun c =>
    if isUnreservedChar c then String.mk [c]
    else String.join ((String.utf8EncodeChar c).map fun b => percentEncodeByte b.toNat))

/-- `encodeKeyForCopySource`: encode each slash-separated segment. -/
def encodeKeyForCopySource (key : String) : String :=
  String.intercalate "/" ((key.data.splitOn '/').map fun seg =>
    encodeURIComponent (String.mk seg))

/-- `buildCopySource`. -/
def buildCopySource (bucket : String) (key : String) : String :=
  bucket ++ "/" ++ encodeKeyForCopySource key

/-- `PromoteScriptResult`. -/
structure PromoteScriptResult where
  sourceBucket : String
  targetBucket : String
  copied : List String
  skipped : List String
  remoteOnly : List String
  manifestCopied : Bool
  dryRun : Bool
  overwrite : Bool
deriving DecidableEq, Repr

/-- `runPromoteScript`, as a pure function of the chosen environments,
the flags, and the key sets the two remote listings return (insertion-
ordered, as `listRemoteKeys` produces them).  The first component is the
returned result (or the thrown error message); the second is the list of
mutating S3 calls the run issues, in order.  JS default `sort()` on the
all-ASCII object keys coincides with lexicographic string order. -/
def runPromoteScript (source target : ContentEnv) (dryRun overwrite : Bool)
    (sourceKeys targetKeys : List String) :
    Except String PromoteScriptResult × List S3Call :=
  if source = target then
    (.error "Source and target environments must be different.", [])
  else
    let sourceBucket := bucketOf source
    let targetBucket := bucketOf target
    if sourceKeys.length = 0 then
      (.error ("No puzzles found in " ++ sourceBucket ++
        ". Upload to the source bucket first."), [])
    else
      let sourceList := sourceKeys.mergeSort fun a b => decide (a ≤ b)
      let puzzlesToCopy :=
        if overwrite then sourceList
        else sourceList.filter fun k => !targetKeys.contains k
      let skipped :=
        if overwrite then []
        else sourceList.filter fun k => targetKeys.contains k
      let remoteOnly :=
        (targetKeys.filter fun k => !sourceKeys.contains k).mergeSort
          fun a b => decide (a ≤ b)
      let copied := puzzlesToCopy
      let copyCalls :=
        if dryRun then [] else
          (puzzlesToCopy.map fun k =>
            S3Call.copyObject targetBucket k (buildCopySource sourceBucket k)) ++
          [S3Call.copyObject targetBucket MANIFEST_KEY
            (buildCopySource sourceBucket MANIFEST_KEY)]
      (.ok { sourceBucket := sourceBucket
             targetBucket := targetBucket
             copied := copied
             skipped := skipped
             remoteOnly := remoteOnly
             manifestCopied := !dryRun
             dryRun := dryRun
             overwrite := overwrite },
       copyCalls)

/-- A word in the fully well-formed shape the schema asks for: non-empty,
equal to its own trimmed form and to its own uppercase form. -/
def goodWord (s : String) : Prop := s ≠ "" ∧ jsTrim s = s ∧ jsToUpper s = s

instance goodWordDecidable (s : String) : Decidable (goodWord s) :=
  inferInstanceAs (Decidable (s ≠ "" ∧ jsTrim s = s ∧ jsToUpper s = s))

/-- The string data of one category of a well-formed document. -/
structure CatSpec where
  id : String
  title : String
  color : String
  words : List String

/-- `cat` is a record carrying the fields of the category description
`c` (it may carry further fields; the validator never enumerates a
category's keys). -/
def goodCategory (cat : JValue) (c : CatSpec) : Prop :=
  ∃ cfields, cat = .obj cfields ∧
    jGet cfields "id" = some (.str c.id) ∧
    jGet cfields "title" = some (.str c.title) ∧
    jGet cfields "color" = some (.str c.color) ∧
    jGet cfields "words" = some (.arr (c.words.map .str))

/-- The hypotheses of the "clean document" claim exactly as the claim
states them: the document holds a categories array of 4 categories, the
16 words are distinct and uppercase-trimmed, there is exactly one
category per color, and the starting order is an exact permutation of
the 16-word pool. -/
def claimShapeHyp (doc : JValue) (fields : List (String × JValue))
    (cats : List JValue) (cs : List CatSpec) (grid : List String) : Prop :=
  doc = .obj fields ∧
  jGet fields "categories" = some (.arr cats) ∧
  List.Forall₂ goodCategory cats cs ∧
  cats.length = 4 ∧
  (∀ c ∈ cs, c.words.length = 4 ∧ ∀ s ∈ c.words, goodWord s) ∧
  ((cs.map fun c => c.words).flatten).Nodup ∧
  (cs.map fun c => c.color).Perm CATEGORY_COLORS ∧
  jGet fields "startGrid" = some (.arr (grid.map .str)) ∧
  grid.Perm ((cs.map fun c => c.words).flatten)

/-- The remaining well-formedness conditions a clean document actually
needs: a well-formed date agreeing with the context, non-empty distinct
category ids, non-empty titles, and no top-level key outside the allowed
root fields. -/
def wellFormedExtras (fields : List (String × JValue)) (cs : List CatSpec)
    (context : ValidationContext) : Prop :=
  (∃ d, jGet fields "date" = some (.str d) ∧ matchesDateRegex d = true ∧
    (context.expectedDate = none ∨ context.expectedDate = some d)) ∧
  (cs.map fun c => c.id).Nodup ∧
  (∀ c ∈ cs, jsTrim c.id ≠ "" ∧ jsTrim c.title ≠ "") ∧
  (∀ k ∈ fields.map Prod.fst, k ∈ ROOT_FIELDS)

/-- The word/category-index pairs the cross-category map accumulates when
categories starting at the given index are processed cleanly. -/
def wordIdxPairs : Nat → List CatSpec → List (String × Nat)
  | _, [] => []
  | i, c :: rest => (c.words.map fun s => (s, i)) ++ wordIdxPairs (i + 1) rest

/-- Folding the color-count bump of `validateCategories` over a list of
colors. -/
def bumpColors : List (String × Nat) → List String → List (String × Nat)
  | m, [] => m
  | m, c :: rest => bumpColors (mapSet m c ((List.lookup c m).getD 0 + 1)) rest

/-- Whether a category element contributes to the occurrence count of
color `c`: it is a record whose `color` field is a valid color equal to
`c` (exactly the condition under which the source bumps the count). -/
def countsColor (c : String) (cat : JValue) : Bool :=
  match cat with
  | .obj fields =>
    match jGet fields "color" with
    | some (.str s) => CATEGORY_COLORS.contains s && s == c
    | _ => false
  | _ => false

/-- The number of categories of color `c` a categories array holds. -/
def colorOccurrences (cats : List JValue) (c : String) : Nat :=
  (cats.filter (countsColor c)).length

/-- The present keys of a sequence of list pages (a key can be absent
from a `Contents` element). -/
def allPageKeys (pages : List ListPage) : List String :=
  (pages.map fun p => p.contents.filterMap id).flatten

/-- The categories of a concrete fully well-formed puzzle document. -/
def exCatSpecs : List CatSpec :=
  [⟨"c1", "T1", "yellow", ["A", "B", "C", "D"]⟩,
   ⟨"c2", "T2", "green", ["E", "F", "G", "H"]⟩,
   ⟨"c3", "T3", "blue", ["I", "J", "K", "L"]⟩,
   ⟨"c4", "T4", "purple", ["M", "N", "O", "P"]⟩]

/-- The JSON value of one such category. -/
def exCatJson (c : CatSpec) : JValue :=
  .obj [("id", .str c.id), ("title", .str c.title), ("color", .str c.color),
    ("words", .arr (c.words.map .str))]

/-- The starting order of the concrete document: the 16 words in category
order (a permutation of the pool). -/
def exGrid : List String :=
  ["A", "B", "C", "D", "E", "F", "G", "H", "I", "J", "K", "L", "M", "N", "O", "P"]

/-- The concrete document's top-level fields, parametrised by its date
string. -/
def exFields (date : String) : List (String × JValue) :=
  [("date", .str date), ("categories", .arr (exCatSpecs.map exCatJson)),
   ("startGrid", .arr (exGrid.map .str))]

/-- A categories array with two `green` categories and zero `yellow`
categories (the C6 example document). -/
def exCatsTwoGreen : List JValue :=
  [exCatJson ⟨"c1", "T1", "green", ["A", "B", "C", "D"]⟩,
   exCatJson ⟨"c2", "T2", "green", ["E", "F", "G", "H"]⟩,
   exCatJson ⟨"c3", "T3", "blue", ["I", "J", "K", "L"]⟩,
   exCatJson ⟨"c4", "T4", "purple", ["M", "N", "O", "P"]⟩]

/-- The top-level fields of the C6 example document. -/
def exFieldsTwoGreen : List (String × JValue) :=
  [("date", .str "2024-01-01"), ("categories", .arr exCatsTwoGreen),
   ("startGrid", .arr (exGrid.map .str))]

/-- A categories array in which the word `A` reappears in category 2
after being claimed by category 0 (the C9 example document). -/
def exCatsCollide : List JValue :=
  [exCatJson ⟨"c1", "T1", "yellow", ["A", "B", "C", "D"]⟩,
   exCatJson ⟨"c2", "T2", "green", ["E", "F", "G", "H"]⟩,
   exCatJson ⟨"c3", "T3", "blue", ["A", "J", "K", "L"]⟩,
   exCatJson ⟨"c4", "T4", "purple", ["M", "N", "O", "P"]⟩]

/-- The top-level fields of the C9 example document. -/
def exFieldsCollide : List (String × JValue) :=
  [("date", .str "2024-01-01"), ("categories", .arr exCatsCollide),
   ("startGrid", .arr (exGrid.map .str))]

theorem string_eq_empty_of_length (s : String) (h : s.length = 0) : s = "" := by
  cases s with
  | mk data =>
    simp [String.length] at h
    simp [h]

theorem string_ne_of_getElem (a b : String) (i : Nat)
    (h : a.data[i]? ≠ b.data[i]?) : a ≠ b := fun e => h (by rw [e])

theorem data_getElem_append_left (s t : String) (i : Nat) (h : i < s.data.length) :
    (s ++ t).data[i]? = s.data[i]? := by
  rw [String.data_append, List.getElem?_append, if_pos h]

theorem data_getElem_append_right (s t : String) (i : Nat) (h : s.data.length ≤ i) :
    (s ++ t).data[i]? = t.data[i - s.data.length]? := by
  rw [String.data_append, List.getElem?_append, if_neg (by omega)]

theorem data_take_append (s t : String) (n : Nat) (h : n ≤ s.data.length) :
    (s ++ t).data.take n = s.data.take n := by
  rw [String.data_append]
  exact List.take_append_of_le_length h

theorem contains_iff (xs : List String) (x : String) :
    xs.contains x = true ↔ x ∈ xs := by simp

theorem lookup_append {β : Type} (m l : List (String × β)) (t : String) :
    List.lookup t (m ++ l) = (List.lookup t m).or (List.lookup t l) := by
  induction m with
  | nil => simp [List.lookup]
  | cons a m ih =>
    obtain ⟨k, v⟩ := a
    by_cases h : t = k
    · subst h
      simp [List.lookup]
    · simp [List.lookup, beq_eq_false_iff_ne.mpr h, ih]

theorem lookup_keys_none {β : Type} (m : List (String × β)) (t : String)
    (h : ∀ p ∈ m, p.1 ≠ t) : List.lookup t m = none := by
  induction m with
  | nil => rfl
  | cons a m ih =>
    obtain ⟨k, v⟩ := a
    have hk : t ≠ k := fun e => (h (k, v) (by simp)) (by simp [e])
    simp only [List.lookup, beq_eq_false_iff_ne.mpr hk]
    exact ih fun p hp => h p (by simp [hp])

theorem lookup_cons_self {b : Type} (k : String) (v : b) (es : List (String × b)) :
    List.lookup k ((k, v) :: es) = some v := by
  simp [List.lookup]

theorem lookup_cons_ne {b : Type} (k t : String) (v : b) (es : List (String × b))
    (h : t ≠ k) : List.lookup t ((k, v) :: es) = List.lookup t es := by
  simp [List.lookup, beq_eq_false_iff_ne.mpr h]

theorem lookup_map_replace (m : List (String × Nat)) (k t : String) (v : Nat) :
    List.lookup t (m.map fun kv => if kv.1 = k then (k, v) else kv) =
      if t = k then (List.lookup k m).map (fun _ => v) else List.lookup t m := by
  induction m with
  | nil => simp [List.lookup]
  | cons a m ih =>
    obtain ⟨k1, v1⟩ := a
    simp only [List.map_cons]
    by_cases h1 : k1 = k
    · subst h1
      have hhead : (if (k1, v1).1 = k1 then (k1, v) else (k1, v1)) = (k1, v) :=
        if_pos rfl
      rw [hhead]
      by_cases h2 : t = k1
      · subst h2
        rw [lookup_cons_self, lookup_cons_self, if_pos rfl]
        rfl
      · rw [lookup_cons_ne _ _ _ _ h2, lookup_cons_ne _ _ _ _ h2, ih, if_neg h2,
          if_neg h2]
    · have hhead : (if (k1, v1).1 = k then (k, v) else (k1, v1)) = (k1, v1) :=
        if_neg h1
      rw [hhead]
      by_cases h2 : t = k1
      · subst h2
        have h3 : t ≠ k := fun e => h1 e
        rw [lookup_cons_self, lookup_cons_self, if_neg h3]
      · rw [lookup_cons_ne _ _ _ _ h2, lookup_cons_ne _ _ _ _ h2, ih]
        by_cases h3 : t = k
        · subst h3
          rw [if_pos rfl, if_pos rfl,
            lookup_cons_ne _ _ _ _ (fun e => h1 (Eq.symm e))]
        · rw [if_neg h3, if_neg h3]

theorem lookup_mapSet (m : List (String × Nat)) (k t : String) (v : Nat) :
    List.lookup t (mapSet m k v) = if t = k then some v else List.lookup t m := by
  unfold mapSet
  cases h : List.lookup k m with
  | none =>
    rw [lookup_append]
    by_cases h2 : t = k
    · subst h2
      simp [h, List.lookup]
    · simp [h2]
      cases h3 : List.lookup t m with
      | none => simp [List.lookup, beq_eq_false_iff_ne.mpr h2]
      | some x => simp
  | some x =>
    rw [lookup_map_replace]
    by_cases h2 : t = k
    · simp [h2, h]
    · simp [h2]

theorem insertSet_of_not_mem (xs : List String) (x : String) (h : ¬ x ∈ xs) :
    insertSet xs x = xs ++ [x] := by
  simp [insertSet, h]

theorem mem_insertSet (xs : List String) (x a : String) :
    a ∈ insertSet xs x ↔ a ∈ xs ∨ a = x := by
  by_cases h : x ∈ xs
  · simp only [insertSet, contains_iff, if_pos h]
    constructor
    · exact Or.inl
    · rintro (h1 | rfl)
      · exact h1
      · exact h
  · simp only [insertSet, contains_iff, if_neg h]
    simp

theorem insertSet_nodup (xs : List String) (x : String) (h : xs.Nodup) :
    (insertSet xs x).Nodup := by
  by_cases hx : x ∈ xs
  · simpa [insertSet, contains_iff, hx] using h
  · rw [insertSet_of_not_mem _ _ hx]
    rw [List.nodup_append]
    refine ⟨h, by simp, ?_⟩
    intro a ha hb
    simp only [List.mem_singleton] at hb
    subst hb
    exact hx ha

theorem mem_foldl_insertSet (l : List String) :
    ∀ (acc : List String) (a : String),
      a ∈ l.foldl insertSet acc ↔ a ∈ acc ∨ a ∈ l := by
  induction l with
  | nil => simp
  | cons x l ih =>
    intro acc a
    simp only [List.foldl_cons, ih, mem_insertSet, List.mem_cons]
    tauto

theorem nodup_foldl_insertSet (l : List String) :
    ∀ acc, List.Nodup acc → (l.foldl insertSet acc).Nodup := by
  induction l with
  | nil => intro acc h; simpa using h
  | cons x l ih =>
    intro acc h
    exact ih _ (insertSet_nodup _ _ h)

theorem categoryWordsLoop_append (i : Nat) (l1 l2 : List JValue) :
    ∀ (st : WordsState) (j : Nat),
      categoryWordsLoop i st j (l1 ++ l2) =
        categoryWordsLoop i (categoryWordsLoop i st j l1) (j + l1.length) l2 := by
  induction l1 with
  | nil => intro st j; simp [categoryWordsLoop]
  | cons w l1 ih =>
    intro st j
    rw [List.cons_append, categoryWordsLoop, categoryWordsLoop, ih]
    have : j + 1 + l1.length = j + (w :: l1).length := by
      simp
      omega
    rw [this]

theorem startGridLoop_append (l1 l2 : List JValue) :
    ∀ (st : GridState) (j : Nat),
      startGridLoop st j (l1 ++ l2) =
        startGridLoop (startGridLoop st j l1) (j + l1.length) l2 := by
  induction l1 with
  | nil => intro st j; simp [startGridLoop]
  | cons w l1 ih =>
    intro st j
    rw [List.cons_append, startGridLoop, startGridLoop, ih]
    have : j + 1 + l1.length = j + (w :: l1).length := by
      simp
      omega
    rw [this]

theorem categoriesLoop_append (l1 l2 : List JValue) :
    ∀ (st : CatState) (j : Nat),
      categoriesLoop st j (l1 ++ l2) =
        categoriesLoop (categoriesLoop st j l1) (j + l1.length) l2 := by
  induction l1 with
  | nil => intro st j; simp [categoriesLoop]
  | cons w l1 ih =>
    intro st j
    rw [List.cons_append, categoriesLoop, categoriesLoop, ih]
    have : j + 1 + l1.length = j + (w :: l1).length := by
      simp
      omega
    rw [this]

theorem goodWord_trim_len (s : String) (h : goodWord s) : ¬ (jsTrim s).length = 0 := by
  rw [h.2.1]
  intro hl
  exact h.1 (string_eq_empty_of_length s hl)

theorem categoryWordStep_good (i j : Nat) (st : WordsState) (s : String)
    (hw : goodWord s) (hl : ¬ s ∈ st.localWords)
    (hs : List.lookup s st.seenWords = none) (hg : ¬ s ∈ st.globalWords) :
    categoryWordStep i st j (.str s) =
      ⟨st.issues, st.localWords ++ [s], st.seenWords ++ [(s, i)],
        st.globalWords ++ [s]⟩ := by
  have hne : ¬ s.length = 0 := fun hl => hw.1 (string_eq_empty_of_length s hl)
  simp [categoryWordStep, hw.2.1, hw.2.2, hne, contains_iff,
    hl, hg, hs, mapSet, insertSet]

theorem categoryWordsLoop_good (i : Nat) (ws : List String) :
    ∀ (st : WordsState) (j : Nat),
      (∀ s ∈ ws, goodWord s) → ws.Nodup →
      (∀ s ∈ ws, ¬ s ∈ st.localWords ∧ List.lookup s st.seenWords = none ∧
        ¬ s ∈ st.globalWords) →
      categoryWordsLoop i st j (ws.map .str) =
        ⟨st.issues, st.localWords ++ ws, st.seenWords ++ (ws.map fun s => (s, i)),
          st.globalWords ++ ws⟩ := by
  induction ws with
  | nil =>
    intro st j _ _ _
    simp [categoryWordsLoop]
  | cons s ws ih =>
    intro st j hgood hnd hfresh
    simp only [List.map_cons, categoryWordsLoop]
    rw [categoryWordStep_good i j st s (hgood s (by simp)) (hfresh s (by simp)).1
      (hfresh s (by simp)).2.1 (hfresh s (by simp)).2.2]
    rw [ih _ (j + 1) (fun x hx => hgood x (by simp [hx])) (List.Nodup.of_cons hnd)
      ?_]
    · simp
    · intro x hx
      have hxs : x ≠ s := by
        intro e
        subst e
        exact (List.nodup_cons.mp hnd).1 hx
      refine ⟨?_, ?_, ?_⟩
      · simp [(hfresh x (by simp [hx])).1, hxs]
      · rw [lookup_append, (hfresh x (by simp [hx])).2.1]
        simp [List.lookup, beq_eq_false_iff_ne.mpr hxs]
      · simp [(hfresh x (by simp [hx])).2.2, hxs]

theorem validateCategoryWords_good (i : Nat) (ws : List String)
    (sw : List (String × Nat)) (gw : List String)
    (hgood : ∀ s ∈ ws, goodWord s) (hnd : ws.Nodup) (hlen : ws.length = 4)
    (hfresh : ∀ s ∈ ws, List.lookup s sw = none ∧ ¬ s ∈ gw) :
    validateCategoryWords (some (.arr (ws.map .str))) i sw gw =
      ([], sw ++ (ws.map fun s => (s, i)), gw ++ ws) := by
  simp only [validateCategoryWords, List.length_map]
  rw [if_neg (by simp [hlen])]
  rw [categoryWordsLoop_good i ws _ 0 hgood hnd
    (fun s hs => ⟨by simp, (hfresh s hs).1, (hfresh s hs).2⟩)]

theorem startGridEntryStep_good (j : Nat) (st : GridState) (s : String)
    (hw : goodWord s) (hseen : ¬ s ∈ st.seen) :
    startGridEntryStep st j (.str s) = ⟨st.issues, st.seen ++ [s]⟩ := by
  have hne : ¬ s.length = 0 := fun hl => hw.1 (string_eq_empty_of_length s hl)
  simp [startGridEntryStep, hw.2.1, hw.2.2, hne, contains_iff, hseen]

theorem startGridLoop_good (gs : List String) :
    ∀ (st : GridState) (j : Nat),
      (∀ s ∈ gs, goodWord s) → gs.Nodup → (∀ s ∈ gs, ¬ s ∈ st.seen) →
      startGridLoop st j (gs.map .str) = ⟨st.issues, st.seen ++ gs⟩ := by
  induction gs with
  | nil =>
    intro st j _ _ _
    simp [startGridLoop]
  | cons s gs ih =>
    intro st j hgood hnd hfresh
    simp only [List.map_cons, startGridLoop]
    rw [startGridEntryStep_good j st s (hgood s (by simp)) (hfresh s (by simp))]
    rw [ih _ (j + 1) (fun x hx => hgood x (by simp [hx])) (List.Nodup.of_cons hnd)
      ?_]
    · simp
    · intro x hx
      have hxs : x ≠ s := by
        intro e
        subst e
        exact (List.nodup_cons.mp hnd).1 hx
      simp [hfresh x (by simp [hx]), hxs]

theorem processCategory_good (i : Nat) (st : CatState)
    (cfields : List (String × JValue)) (c : CatSpec)
    (hid : jGet cfields "id" = some (.str c.id))
    (htl : jGet cfields "title" = some (.str c.title))
    (hco : jGet cfields "color" = some (.str c.color))
    (hwo : jGet cfields "words" = some (.arr (c.words.map .str)))
    (hidne : jsTrim c.id ≠ "") (hidf : ¬ c.id ∈ st.seenIds)
    (htlne : jsTrim c.title ≠ "")
    (hcol : c.color ∈ CATEGORY_COLORS)
    (hww : ∀ s ∈ c.words, goodWord s) (hnd : c.words.Nodup)
    (hlen : c.words.length = 4)
    (hfresh : ∀ s ∈ c.words, List.lookup s st.seenWords = none ∧ ¬ s ∈ st.words) :
    processCategory st i (.obj cfields) =
      ⟨st.issues, st.seenIds ++ [c.id],
        st.seenWords ++ (c.words.map fun s => (s, i)),
        mapSet st.colorCounts c.color
          ((List.lookup c.color st.colorCounts).getD 0 + 1),
        st.words ++ c.words⟩ := by
  have h1 : ¬ (jsTrim c.id).length = 0 := fun h => hidne (string_eq_empty_of_length _ h)
  have h2 : 0 < (jsTrim c.title).length :=
    Nat.pos_of_ne_zero fun h => htlne (string_eq_empty_of_length _ h)
  simp [processCategory, hid, htl, hco, hwo, validateCategoryId, h1, contains_iff,
    hidf, isNonEmptyString, h2, validateCategoryColor, hcol,
    validateCategoryWords_good i c.words st.seenWords st.words hww hnd hlen hfresh]

theorem lookup_bumpColors (l : List String) :
    ∀ (m : List (String × Nat)) (c : String),
      List.lookup c (bumpColors m l) =
        if l.count c = 0 then List.lookup c m
        else some ((List.lookup c m).getD 0 + l.count c) := by
  induction l with
  | nil =>
    intro m c
    simp [bumpColors]
  | cons a l ih =>
    intro m c
    rw [bumpColors, ih]
    by_cases hac : c = a
    · subst hac
      rw [lookup_mapSet, if_pos rfl, List.count_cons_self,
        if_neg (Nat.succ_ne_zero _)]
      by_cases h0 : l.count c = 0
      · simp [h0]
      · rw [if_neg h0]
        simp only [Option.getD_some]
        congr 1
        omega
    · rw [lookup_mapSet, if_neg hac, List.count_cons_of_ne hac]

theorem categoriesLoop_good (cats : List JValue) :
    ∀ (cs : List CatSpec) (st : CatState) (i : Nat),
      List.Forall₂ goodCategory cats cs →
      (∀ c ∈ cs, jsTrim c.id ≠ "" ∧ jsTrim c.title ≠ "" ∧ c.color ∈ CATEGORY_COLORS ∧
        c.words.length = 4 ∧ c.words.Nodup ∧ (∀ s ∈ c.words, goodWord s)) →
      (st.seenIds ++ (cs.map fun c => c.id)).Nodup →
      ((cs.map fun c => c.words).flatten).Nodup →
      (∀ s ∈ (cs.map fun c => c.words).flatten,
        List.lookup s st.seenWords = none ∧ ¬ s ∈ st.words) →
      categoriesLoop st i cats =
        ⟨st.issues, st.seenIds ++ (cs.map fun c => c.id),
          st.seenWords ++ wordIdxPairs i cs,
          bumpColors st.colorCounts (cs.map fun c => c.color),
          st.words ++ (cs.map fun c => c.words).flatten⟩ := by
  induction cats with
  | nil =>
    intro cs st i hf _ _ _ _
    cases hf
    simp [categoriesLoop, wordIdxPairs, bumpColors]
  | cons cat cats ih =>
    intro cs st i hf hprops hids hwnd hfresh
    rcases hf with _ | ⟨hc, hf'⟩
    rename_i c cs'
    obtain ⟨cfields, rfl, hid, htl, hco, hwo⟩ := hc
    have hcprops := hprops c (by simp)
    have hidf : ¬ c.id ∈ st.seenIds := by
      rw [List.nodup_append] at hids
      intro hmem
      exact hids.2.2 hmem (by simp)
    have hdisj : ∀ s ∈ c.words, ¬ s ∈ (cs'.map fun c => c.words).flatten := by
      have := hwnd
      simp only [List.map_cons, List.flatten_cons, List.nodup_append] at this
      intro s hs hmem
      exact this.2.2 hs hmem
    rw [categoriesLoop]
    rw [processCategory_good i st cfields c hid htl hco hwo hcprops.1 hidf
      hcprops.2.1 hcprops.2.2.1 hcprops.2.2.2.2.2 hcprops.2.2.2.2.1
      hcprops.2.2.2.1
      (fun s hs => hfresh s (by simp [hs]))]
    rw [ih cs' _ (i + 1) hf' (fun x hx => hprops x (by simp [hx])) ?_ ?_ ?_]
    · simp only [List.map_cons, List.flatten_cons, wordIdxPairs, bumpColors]
      simp [List.append_assoc]
    · simp only [List.map_cons] at hids ⊢
      have : st.seenIds ++ c.id :: (cs'.map fun c => c.id) =
          (st.seenIds ++ [c.id]) ++ (cs'.map fun c => c.id) := by simp
      rw [this] at hids
      exact hids
    · have := hwnd
      simp only [List.map_cons, List.flatten_cons, List.nodup_append] at this
      exact this.2.1
    · intro s hs
      have hsc : ¬ s ∈ c.words := fun hmem => hdisj s hmem hs
      have horig := hfresh s (by simp [hs])
      refine ⟨?_, ?_⟩
      · rw [lookup_append, horig.1]
        rw [lookup_keys_none]
        · rfl
        · intro p hp
          simp only [List.mem_map] at hp
          obtain ⟨w, hw, rfl⟩ := hp
          intro e
          have e2 : w = s := e
          subst e2
          exact hsc hw
      · simp [horig.2, hsc]

theorem validateCategories_good (cats : List JValue) (cs : List CatSpec)
    (hf : List.Forall₂ goodCategory cats cs)
    (hprops : ∀ c ∈ cs, jsTrim c.id ≠ "" ∧ jsTrim c.title ≠ "" ∧
      c.color ∈ CATEGORY_COLORS ∧ c.words.length = 4 ∧ c.words.Nodup ∧
      (∀ s ∈ c.words, goodWord s))
    (hids : (cs.map fun c => c.id).Nodup)
    (hwnd : ((cs.map fun c => c.words).flatten).Nodup)
    (hlen : cats.length = 4)
    (hperm : (cs.map fun c => c.color).Perm CATEGORY_COLORS) :
    validateCategories (some (.arr cats)) =
      ([], (cs.map fun c => c.words).flatten) := by
  have hcslen : cs.length = 4 := by rw [← hf.length_eq]; exact hlen
  have hflen : ((cs.map fun c => c.words).flatten).length = 16 := by
    rw [List.length_flatten, List.map_map]
    have h44 : cs.map (List.length ∘ fun c => c.words) = List.replicate 4 4 := by
      rw [List.eq_replicate_iff]
      constructor
      · simp [hcslen]
      · intro b hb
        simp only [List.mem_map, Function.comp] at hb
        obtain ⟨c, hc, rfl⟩ := hb
        exact (hprops c hc).2.2.2.1
    rw [h44]
    simp
  have hcount : ∀ col ∈ CATEGORY_COLORS, (cs.map fun c => c.color).count col = 1 := by
    intro col hcol
    rw [hperm.count_eq]
    simp only [CATEGORY_COLORS, List.mem_cons, List.not_mem_nil, or_false] at hcol
    rcases hcol with h | h | h | h <;> (subst h; decide)
  have hlkc : ∀ col ∈ CATEGORY_COLORS,
      List.lookup col (bumpColors [] (cs.map fun c => c.color)) = some 1 := by
    intro col hcol
    rw [lookup_bumpColors, hcount col hcol]
    simp [List.lookup]
  have hfm : ∀ col ∈ CATEGORY_COLORS,
      (if (List.lookup col (bumpColors [] (cs.map fun c => c.color))).getD 0 ≠ 1
        then some (⟨"categories", colorCountMsg col
          ((List.lookup col (bumpColors [] (cs.map fun c => c.color))).getD 0)⟩ :
            ValidationIssue)
        else none) = none := by
    intro col hcol
    simp [hlkc col hcol]
  have hloop := categoriesLoop_good cats cs
    (CatState.mk (if cats.length ≠ 4 then
      [⟨"categories", "Expected exactly 4 categories, received " ++
        toString cats.length ++ "."⟩] else []) [] [] [] []) 0 hf hprops
    (by simpa using hids) hwnd (by simp)
  simp only [validateCategories]
  rw [hloop]
  dsimp only
  simp only [hlen, hflen, List.filterMap_eq_nil_iff, List.nil_append]
  simp [hflen]
  intro col hcol
  simp [hlkc col hcol]

theorem validateStartingOrder_good (grid pool : List String)
    (hgood : ∀ s ∈ grid, goodWord s) (hnd : grid.Nodup)
    (hperm : grid.Perm pool) (hpos : 0 < pool.length) :
    validateStartingOrder (some (.arr (grid.map .str))) pool = [] := by
  have hlen2 : grid.length = pool.length := hperm.length_eq
  have hmemgp : ∀ w ∈ grid, w ∈ pool := fun w hw => hperm.mem_iff.mp hw
  have hmempg : ∀ w ∈ pool, w ∈ grid := fun w hw => hperm.mem_iff.mpr hw
  have hmiss : (pool.filter fun w => !decide (w ∈ grid)) = [] := by
    rw [List.filter_eq_nil_iff]
    intro w hw
    simp [hmempg w hw]
  have hextra : (grid.filter fun w => !decide (w ∈ pool)) = [] := by
    rw [List.filter_eq_nil_iff]
    intro w hw
    simp [hmemgp w hw]
  simp only [validateStartingOrder]
  rw [startGridLoop_good grid _ 0 hgood hnd (by simp)]
  simp only [List.nil_append]
  simp [hpos, hlen2, hmiss, hextra]

theorem validateDate_good (d : String) (context : ValidationContext)
    (hre : matchesDateRegex d = true)
    (hctx : context.expectedDate = none ∨ context.expectedDate = some d) :
    validateDate (some (.str d)) context = [] := by
  simp only [validateDate, hre]
  rcases hctx with h | h <;> simp [h]

theorem validateRootKeys_allowed (fields : List (String × JValue))
    (h : ∀ k ∈ fields.map Prod.fst, k ∈ ROOT_FIELDS) :
    validateRootKeys fields = [] := by
  induction fields with
  | nil => rfl
  | cons a fs ih =>
    obtain ⟨k, v⟩ := a
    simp only [validateRootKeys]
    rw [if_pos (by simpa [contains_iff] using h k (by simp))]
    simpa using ih fun x hx => h x (by simp [hx])

/-- C1 (amended): for every document with 4 categories, 16 distinct
uppercase trimmed words, exactly one category per color, a starting-order
list that is an exact permutation of those 16 words, and — as the code
additionally requires — a well-formed date agreeing with the context,
non-empty distinct category ids, non-empty titles, and no unexpected
top-level key, `validatePuzzle` returns an empty issue list. -/
theorem c1_clean_document_validates
    (doc : JValue) (fields : List (String × JValue)) (cats : List JValue)
    (cs : List CatSpec) (grid : List String) (context : ValidationContext)
    (hshape : claimShapeHyp doc fields cats cs grid)
    (hextra : wellFormedExtras fields cs context) :
    validatePuzzle doc context = [] := by
  obtain ⟨rfl, hcats, hf, hlen, hwords, hwnd, hcolors, hgrid, hgperm⟩ := hshape
  obtain ⟨⟨d, hdate, hre, hctx⟩, hids, hidt, hroot⟩ := hextra
  have hprops : ∀ c ∈ cs, jsTrim c.id ≠ "" ∧ jsTrim c.title ≠ "" ∧
      c.color ∈ CATEGORY_COLORS ∧ c.words.length = 4 ∧ c.words.Nodup ∧
      (∀ s ∈ c.words, goodWord s) := by
    intro c hc
    refine ⟨(hidt c hc).1, (hidt c hc).2, ?_, (hwords c hc).1, ?_, (hwords c hc).2⟩
    · exact hcolors.subset (List.mem_map_of_mem _ hc)
    · exact (List.nodup_flatten.mp hwnd).1 c.words (List.mem_map_of_mem _ hc)
  have hcslen : cs.length = 4 := by rw [← hf.length_eq]; exact hlen
  have hflenpos : 0 < ((cs.map fun c => c.words).flatten).length := by
    rw [List.length_flatten, List.map_map]
    cases cs with
    | nil => simp at hcslen
    | cons c cs' =>
      have h4 : c.words.length = 4 := (hprops c (by simp)).2.2.2.1
      simp [Function.comp, h4]
  have hgridgood : ∀ s ∈ grid, goodWord s := by
    intro s hs
    have hsf : s ∈ (cs.map fun c => c.words).flatten := hgperm.mem_iff.mp hs
    simp only [List.mem_flatten, List.mem_map] at hsf
    obtain ⟨l, ⟨c, hc, rfl⟩, hsl⟩ := hsf
    exact (hwords c hc).2 s hsl
  have hgridnd : grid.Nodup := hgperm.nodup_iff.mpr hwnd
  simp only [validatePuzzle]
  rw [hdate, hcats, hgrid]
  rw [validateDate_good d context hre hctx]
  rw [validateCategories_good cats cs hf hprops hids hwnd hlen hcolors]
  dsimp only
  rw [validateStartingOrder_good grid ((cs.map fun c => c.words).flatten)
    hgridgood hgridnd hgperm hflenpos]
  rw [validateRootKeys_allowed fields hroot]
  rfl

/-- C1 counterexample: a document satisfying every hypothesis the claim
lists (4 categories, 16 distinct uppercase trimmed words, exactly one
category per color, and a starting order that is an exact permutation of
the pool) but whose date string is malformed; `validatePuzzle` reports an
issue on it, so the claim as stated is false. -/
theorem c1_clean_document_validates_cex :
    claimShapeHyp (JValue.obj (exFields "not-a-date")) (exFields "not-a-date")
      (exCatSpecs.map exCatJson) exCatSpecs exGrid ∧
    validatePuzzle (JValue.obj (exFields "not-a-date")) ⟨none⟩ ≠ [] := by
  constructor
  · refine ⟨rfl, rfl, ?_, by decide, by decide, by decide, by decide, rfl,
      by decide⟩
    refine List.Forall₂.cons ⟨_, rfl, rfl, rfl, rfl, rfl⟩ ?_
    refine List.Forall₂.cons ⟨_, rfl, rfl, rfl, rfl, rfl⟩ ?_
    refine List.Forall₂.cons ⟨_, rfl, rfl, rfl, rfl, rfl⟩ ?_
    refine List.Forall₂.cons ⟨_, rfl, rfl, rfl, rfl, rfl⟩ ?_
    exact List.Forall₂.nil
  · decide

/-- C1 witness: the amended theorem applied to the concrete well-formed
document carrying the date 2024-01-01. -/
theorem c1_clean_document_validates_witness :
    validatePuzzle (JValue.obj (exFields "2024-01-01")) ⟨none⟩ = [] := by
  refine c1_clean_document_validates _ (exFields "2024-01-01")
    (exCatSpecs.map exCatJson) exCatSpecs exGrid ⟨none⟩
    ⟨rfl, rfl, ?_, by decide, by decide, by decide, by decide, rfl, by decide⟩
    ⟨⟨"2024-01-01", rfl, by decide, Or.inl rfl⟩, by decide, by decide, by decide⟩
  refine List.Forall₂.cons ⟨_, rfl, rfl, rfl, rfl, rfl⟩ ?_
  refine List.Forall₂.cons ⟨_, rfl, rfl, rfl, rfl, rfl⟩ ?_
  refine List.Forall₂.cons ⟨_, rfl, rfl, rfl, rfl, rfl⟩ ?_
  refine List.Forall₂.cons ⟨_, rfl, rfl, rfl, rfl, rfl⟩ ?_
  exact List.Forall₂.nil

/-- C4: `validatePuzzle` is a total Lean function (the source never
throws); a non-object input yields exactly one issue whose field is the
empty string; and for object inputs the result is the concatenation of
the date, categories, starting-order and unexpected-root-key check
results, so no check's failure suppresses another's issues. -/
theorem c4_validate_total_concat (v : JValue) (context : ValidationContext) :
    (isRecord v = false →
      validatePuzzle v context = [⟨"", "Puzzle must be an object."⟩]) ∧
    (∀ fields, v = .obj fields →
      validatePuzzle v context =
        validateDate (jGet fields "date") context ++
          (validateCategories (jGet fields "categories")).1 ++
          validateStartingOrder (jGet fields "startGrid")
            (validateCategories (jGet fields "categories")).2 ++
          validateRootKeys fields) := by
  constructor
  · intro h
    cases v <;> simp_all [validatePuzzle, isRecord]
  · rintro fields rfl
    rfl

/-- C4 witness: both branches exercised at concrete inputs. -/
theorem c4_validate_total_concat_witness :
    validatePuzzle JValue.other ⟨none⟩ = [⟨"", "Puzzle must be an object."⟩] ∧
    validatePuzzle (JValue.obj [("extra", JValue.other)]) ⟨none⟩ =
      validateDate (jGet [("extra", JValue.other)] "date") ⟨none⟩ ++
        (validateCategories (jGet [("extra", JValue.other)] "categories")).1 ++
        validateStartingOrder (jGet [("extra", JValue.other)] "startGrid")
          (validateCategories (jGet [("extra", JValue.other)] "categories")).2 ++
        validateRootKeys [("extra", JValue.other)] :=
  ⟨(c4_validate_total_concat JValue.other ⟨none⟩).1 rfl,
   (c4_validate_total_concat (JValue.obj [("extra", JValue.other)]) ⟨none⟩).2 _ rfl⟩

/-- C7: when validating the requested local document set produces any
issue, the upload script returns the thrown error built from the issue
list and issues zero remote calls — no puzzle put and no manifest put. -/
theorem c7_upload_fail_closed (validation : ValidateScriptResult)
    (env : ContentEnv) (dryRun : Bool) (remoteKeys : List String) (now : String)
    (h : validation.issues ≠ []) :
    runUploadScript validation env dryRun remoteKeys now =
      (.error (uploadIssueSummary validation.issues), []) := by
  have hlen : validation.issues.length > 0 := List.length_pos.mpr h
  simp [runUploadScript, hlen]

/-- C7 witness: a one-issue validation result aborts the upload with no
calls. -/
theorem c7_upload_fail_closed_witness :
    runUploadScript ⟨[⟨"bad.json", "2024-01-01", "x"⟩],
        [⟨"bad.json", "date", "Date must follow YYYY-MM-DD (e.g., 2024-01-01)."⟩]⟩
      .dev false ["puzzles/ok.json"] "2024-01-01T00:00:00.000Z" =
      (.error (uploadIssueSummary
        [⟨"bad.json", "date", "Date must follow YYYY-MM-DD (e.g., 2024-01-01)."⟩]), []) :=
  c7_upload_fail_closed _ _ _ _ _ (by decide)

/-- C5: with dryRun = true, the upload and promote scripts issue zero
mutating remote calls, their would-do lists (`uploaded` / `copied`) equal
what the same inputs produce with dryRun = false, and the manifest flag
(`manifestUploaded` / `manifestCopied`) is false. -/
theorem c5_dry_run_equiv (validation : ValidateScriptResult) (env : ContentEnv)
    (remoteKeys : List String) (now : String) (source target : ContentEnv)
    (overwrite : Bool) (sourceKeys targetKeys : List String) :
    (runUploadScript validation env true remoteKeys now).2 = [] ∧
    Except.map (fun r => r.uploaded)
        (runUploadScript validation env true remoteKeys now).1 =
      Except.map (fun r => r.uploaded)
        (runUploadScript validation env false remoteKeys now).1 ∧
    (∀ r, (runUploadScript validation env true remoteKeys now).1 = .ok r →
      r.manifestUploaded = false) ∧
    (runPromoteScript source target true overwrite sourceKeys targetKeys).2 = [] ∧
    Except.map (fun r => r.copied)
        (runPromoteScript source target true overwrite sourceKeys targetKeys).1 =
      Except.map (fun r => r.copied)
        (runPromoteScript source target false overwrite sourceKeys targetKeys).1 ∧
    (∀ r, (runPromoteScript source target true overwrite sourceKeys targetKeys).1 =
        .ok r →
      r.manifestCopied = false) := by
  by_cases h1 : validation.issues.length > 0
  · by_cases h3 : source = target
    · refine ⟨by simp [runUploadScript, h1, Except.map], by simp [runUploadScript, h1, Except.map], ?_,
        by simp [runPromoteScript, h3, Except.map], by simp [runPromoteScript, h3, Except.map], ?_⟩
      · intro r hr
        simp [runUploadScript, h1] at hr
      · intro r hr
        simp [runPromoteScript, h3] at hr
    · by_cases h4 : sourceKeys.length = 0
      · refine ⟨by simp [runUploadScript, h1, Except.map], by simp [runUploadScript, h1, Except.map], ?_,
          by simp [runPromoteScript, h3, h4, Except.map], by simp [runPromoteScript, h3, h4, Except.map], ?_⟩
        · intro r hr
          simp [runUploadScript, h1] at hr
        · intro r hr
          simp [runPromoteScript, h3, h4] at hr
      · refine ⟨by simp [runUploadScript, h1, Except.map], by simp [runUploadScript, h1, Except.map], ?_,
          by simp [runPromoteScript, h3, h4, Except.map], by simp [runPromoteScript, h3, h4, Except.map], ?_⟩
        · intro r hr
          simp [runUploadScript, h1] at hr
        · intro r hr
          simp [runPromoteScript, h3, h4] at hr
          subst hr
          rfl
  · by_cases h2 : validation.filesChecked.length = 0
    · by_cases h3 : source = target
      · refine ⟨by simp [runUploadScript, h1, h2, Except.map], by simp [runUploadScript, h1, h2, Except.map],
          ?_, by simp [runPromoteScript, h3, Except.map], by simp [runPromoteScript, h3, Except.map], ?_⟩
        · intro r hr
          simp [runUploadScript, h1, h2] at hr
          subst hr
          rfl
        · intro r hr
          simp [runPromoteScript, h3] at hr
      · by_cases h4 : sourceKeys.length = 0
        · refine ⟨by simp [runUploadScript, h1, h2, Except.map],
            by simp [runUploadScript, h1, h2, Except.map], ?_,
            by simp [runPromoteScript, h3, h4, Except.map],
            by simp [runPromoteScript, h3, h4, Except.map], ?_⟩
          · intro r hr
            simp [runUploadScript, h1, h2] at hr
            subst hr
            rfl
          · intro r hr
            simp [runPromoteScript, h3, h4] at hr
        · refine ⟨by simp [runUploadScript, h1, h2, Except.map],
            by simp [runUploadScript, h1, h2, Except.map], ?_,
            by simp [runPromoteScript, h3, h4, Except.map],
            by simp [runPromoteScript, h3, h4, Except.map], ?_⟩
          · intro r hr
            simp [runUploadScript, h1, h2] at hr
            subst hr
            rfl
          · intro r hr
            simp [runPromoteScript, h3, h4] at hr
            subst hr
            rfl
    · by_cases h3 : source = target
      · refine ⟨by simp [runUploadScript, h1, h2, Except.map], by simp [runUploadScript, h1, h2, Except.map],
          ?_, by simp [runPromoteScript, h3, Except.map], by simp [runPromoteScript, h3, Except.map], ?_⟩
        · intro r hr
          simp [runUploadScript, h1, h2] at hr
          subst hr
          rfl
        · intro r hr
          simp [runPromoteScript, h3] at hr
      · by_cases h4 : sourceKeys.length = 0
        · refine ⟨by simp [runUploadScript, h1, h2, Except.map],
            by simp [runUploadScript, h1, h2, Except.map], ?_,
            by simp [runPromoteScript, h3, h4, Except.map],
            by simp [runPromoteScript, h3, h4, Except.map], ?_⟩
          · intro r hr
            simp [runUploadScript, h1, h2] at hr
            subst hr
            rfl
          · intro r hr
            simp [runPromoteScript, h3, h4] at hr
        · refine ⟨by simp [runUploadScript, h1, h2, Except.map],
            by simp [runUploadScript, h1, h2, Except.map], ?_,
            by simp [runPromoteScript, h3, h4, Except.map],
            by simp [runPromoteScript, h3, h4, Except.map], ?_⟩
          · intro r hr
            simp [runUploadScript, h1, h2] at hr
            subst hr
            rfl
          · intro r hr
            simp [runPromoteScript, h3, h4] at hr
            subst hr
            rfl

/-- C5 witness: concrete dry runs of both scripts. -/
theorem c5_dry_run_equiv_witness :
    (runUploadScript ⟨[⟨"a/2024-01-01.json", "2024-01-01", "x"⟩], []⟩ .dev true
      [] "t").2 = [] ∧
    Except.map (fun r => r.uploaded)
        (runUploadScript ⟨[⟨"a/2024-01-01.json", "2024-01-01", "x"⟩], []⟩ .dev
          true [] "t").1 =
      Except.map (fun r => r.uploaded)
        (runUploadScript ⟨[⟨"a/2024-01-01.json", "2024-01-01", "x"⟩], []⟩ .dev
          false [] "t").1 ∧
    (∀ r, (runUploadScript ⟨[⟨"a/2024-01-01.json", "2024-01-01", "x"⟩], []⟩ .dev
        true [] "t").1 = .ok r → r.manifestUploaded = false) ∧
    (runPromoteScript .dev .prod true false ["puzzles/a.json"] []).2 = [] ∧
    Except.map (fun r => r.copied)
        (runPromoteScript .dev .prod true false ["puzzles/a.json"] []).1 =
      Except.map (fun r => r.copied)
        (runPromoteScript .dev .prod false false ["puzzles/a.json"] []).1 ∧
    (∀ r, (runPromoteScript .dev .prod true false ["puzzles/a.json"] []).1 =
        .ok r → r.manifestCopied = false) :=
  c5_dry_run_equiv ⟨[⟨"a/2024-01-01.json", "2024-01-01", "x"⟩], []⟩ .dev [] "t"
    .dev .prod false ["puzzles/a.json"] []

theorem mergeSort_le_sorted (l : List String) :
    (l.mergeSort fun a b => decide (a ≤ b)).Pairwise (· ≤ ·) := by
  have h := @List.sorted_mergeSort String (fun a b : String => decide (a ≤ b))
    (fun a b c hab hbc => by
      simp only [decide_eq_true_eq] at hab hbc ⊢
      exact le_trans hab hbc)
    (fun a b => by simp [le_total]) l
  exact h.imp (by simp)

theorem mergeSort_manifest_sorted (l : List ManifestEntry) :
    (l.mergeSort fun a b => decide (a.date ≤ b.date)).Pairwise
      (fun a b => a.date ≤ b.date) := by
  have h := @List.sorted_mergeSort ManifestEntry
    (fun a b : ManifestEntry => decide (a.date ≤ b.date))
    (fun a b c hab hbc => by
      simp only [decide_eq_true_eq] at hab hbc ⊢
      exact le_trans hab hbc)
    (fun a b => by simp [le_total]) l
  exact h.imp (by simp)

/-- C3: for a promote run with distinct source and target and a non-empty
source key set, without overwrite `copied` is exactly the source keys
absent from the target and `skipped` exactly those present; with
overwrite `copied` is all source keys and `skipped` is empty;
`remoteOnly` is the sorted list of target keys absent from the source;
and with dryRun = false the issued calls are one copy per candidate in
ascending key order followed by exactly one manifest copy, regardless of
the overwrite flag. -/
theorem c3_promote_reconcile (source target : ContentEnv) (overwrite : Bool)
    (sourceKeys targetKeys : List String)
    (hst : source ≠ target) (hne : sourceKeys ≠ []) :
    ∃ res : PromoteScriptResult,
      (runPromoteScript source target false overwrite sourceKeys targetKeys).1 =
        .ok res ∧
      (overwrite = false →
        (∀ k, k ∈ res.copied ↔ k ∈ sourceKeys ∧ ¬ k ∈ targetKeys) ∧
        (∀ k, k ∈ res.skipped ↔ k ∈ sourceKeys ∧ k ∈ targetKeys)) ∧
      (overwrite = true →
        (∀ k, k ∈ res.copied ↔ k ∈ sourceKeys) ∧ res.skipped = []) ∧
      (∀ k, k ∈ res.remoteOnly ↔ k ∈ targetKeys ∧ ¬ k ∈ sourceKeys) ∧
      List.Pairwise (· ≤ ·) res.remoteOnly ∧
      List.Pairwise (· ≤ ·) res.copied ∧
      (runPromoteScript source target false overwrite sourceKeys targetKeys).2 =
        (res.copied.map fun k => S3Call.copyObject (bucketOf target) k
          (buildCopySource (bucketOf source) k)) ++
        [S3Call.copyObject (bucketOf target) MANIFEST_KEY
          (buildCopySource (bucketOf source) MANIFEST_KEY)] := by
  have hlen : ¬ sourceKeys.length = 0 := by simp [hne]
  refine ⟨⟨bucketOf source, bucketOf target,
      (if overwrite then sourceKeys.mergeSort (fun a b => decide (a ≤ b))
       else (sourceKeys.mergeSort (fun a b => decide (a ≤ b))).filter
         (fun k => !targetKeys.contains k)),
      (if overwrite then []
       else (sourceKeys.mergeSort (fun a b => decide (a ≤ b))).filter
         (fun k => targetKeys.contains k)),
      ((targetKeys.filter fun k => !sourceKeys.contains k).mergeSort
        (fun a b => decide (a ≤ b))),
      true, false, overwrite⟩,
    by simp [runPromoteScript, hst, hlen], ?_, ?_, ?_, ?_, ?_, ?_⟩
  · rintro rfl
    constructor
    · intro k
      simp [List.mem_filter, List.mem_mergeSort, contains_iff]
    · intro k
      simp [List.mem_filter, List.mem_mergeSort, contains_iff]
  · rintro rfl
    constructor
    · intro k
      simp [List.mem_mergeSort]
    · rfl
  · intro k
    simp [List.mem_filter, List.mem_mergeSort, contains_iff]
  · exact mergeSort_le_sorted _
  · cases overwrite
    · simp only [Bool.false_eq_true, if_false]
      exact List.Pairwise.sublist (List.filter_sublist _) (mergeSort_le_sorted _)
    · simp only [if_true]
      exact mergeSort_le_sorted _
  · simp [runPromoteScript, hst, hlen]

/-- C3 witness: a concrete promote with source keys missing from and
present in the target. -/
theorem c3_promote_reconcile_witness :
    ∃ res : PromoteScriptResult,
      (runPromoteScript .dev .prod false false
        ["puzzles/a.json", "puzzles/b.json"] ["puzzles/a.json", "puzzles/c.json"]).1 =
        .ok res ∧
      (false = false →
        (∀ k, k ∈ res.copied ↔ k ∈ ["puzzles/a.json", "puzzles/b.json"] ∧
          ¬ k ∈ ["puzzles/a.json", "puzzles/c.json"]) ∧
        (∀ k, k ∈ res.skipped ↔ k ∈ ["puzzles/a.json", "puzzles/b.json"] ∧
          k ∈ ["puzzles/a.json", "puzzles/c.json"])) ∧
      (false = true →
        (∀ k, k ∈ res.copied ↔ k ∈ ["puzzles/a.json", "puzzles/b.json"]) ∧
        res.skipped = []) ∧
      (∀ k, k ∈ res.remoteOnly ↔ k ∈ ["puzzles/a.json", "puzzles/c.json"] ∧
        ¬ k ∈ ["puzzles/a.json", "puzzles/b.json"]) ∧
      List.Pairwise (· ≤ ·) res.remoteOnly ∧
      List.Pairwise (· ≤ ·) res.copied ∧
      (runPromoteScript .dev .prod false false
        ["puzzles/a.json", "puzzles/b.json"] ["puzzles/a.json", "puzzles/c.json"]).2 =
        (res.copied.map fun k => S3Call.copyObject (bucketOf .prod) k
          (buildCopySource (bucketOf .dev) k)) ++
        [S3Call.copyObject (bucketOf .prod) MANIFEST_KEY
          (buildCopySource (bucketOf .dev) MANIFEST_KEY)] :=
  c3_promote_reconcile .dev .prod false
    ["puzzles/a.json", "puzzles/b.json"] ["puzzles/a.json", "puzzles/c.json"]
    (by decide) (by decide)

/-- C2: for a non-dry upload run over a clean, non-empty validated local
set whose derived keys are distinct, the issued calls are exactly one put
per local key missing from the remote set `R` (in order), followed by
exactly one manifest put built from the full validated local set (with
`puzzles` sorted ascending by date) — even when every puzzle key was
skipped; `uploaded` is the missing keys and `skipped` is the local keys
present in `R` (a membership test only — contents are never compared). -/
theorem c2_upload_reconcile (validation : ValidateScriptResult) (env : ContentEnv)
    (remoteKeys : List String) (now : String)
    (hclean : validation.issues = []) (hne : validation.filesChecked ≠ [])
    (hnd : ((validation.filesChecked.map toPuzzleEntry).map fun e => e.key).Nodup) :
    ∃ res : UploadScriptResult,
      (runUploadScript validation env false remoteKeys now).1 = .ok res ∧
      (runUploadScript validation env false remoteKeys now).2 =
        (((validation.filesChecked.map toPuzzleEntry).filter fun e =>
            !remoteKeys.contains e.key).map fun e =>
          S3Call.putObject (bucketOf env) e.key (.text e.contents)
            "application/json" "public, max-age=300") ++
        [S3Call.putObject (bucketOf env) MANIFEST_KEY
          (manifestBody (buildManifest now
            (validation.filesChecked.map toPuzzleEntry)))
          "application/json" "public, max-age=120"] ∧
      res.uploaded = ((validation.filesChecked.map toPuzzleEntry).filter fun e =>
          !remoteKeys.contains e.key).map (fun e => e.key) ∧
      res.uploaded.Nodup ∧
      (∀ k, k ∈ res.uploaded ↔
        (k ∈ (validation.filesChecked.map toPuzzleEntry).map (fun e => e.key) ∧
          ¬ k ∈ remoteKeys)) ∧
      (∀ k, k ∈ res.skipped ↔
        (k ∈ (validation.filesChecked.map toPuzzleEntry).map (fun e => e.key) ∧
          k ∈ remoteKeys)) ∧
      res.manifestUploaded = true ∧
      (buildManifest now
        (validation.filesChecked.map toPuzzleEntry)).puzzles.Pairwise
        (fun a b => a.date ≤ b.date) := by
  have h1 : ¬ validation.issues.length > 0 := by simp [hclean]
  have h2 : ¬ validation.filesChecked.length = 0 := by simp [hne]
  refine ⟨⟨bucketOf env, (validation.filesChecked.map toPuzzleEntry).length,
      ((validation.filesChecked.map toPuzzleEntry).filter fun e =>
        !remoteKeys.contains e.key).map (fun e => e.key),
      ((validation.filesChecked.map toPuzzleEntry).filter fun e =>
        remoteKeys.contains e.key).map (fun e => e.key),
      remoteKeys.filter (fun k =>
        !((validation.filesChecked.map toPuzzleEntry).map fun e => e.key).contains k),
      true, false⟩,
    by simp [runUploadScript, h1, h2], by simp [runUploadScript, h1, h2],
    rfl, ?_, ?_, ?_, rfl, ?_⟩
  · exact List.Nodup.sublist (List.Sublist.map _ (List.filter_sublist _)) hnd
  · intro k
    simp only [List.mem_map, List.mem_filter, contains_iff, Bool.not_eq_true',
      Bool.not_eq_true]
    constructor
    · rintro ⟨e, ⟨he, hr⟩, rfl⟩
      refine ⟨⟨e, he, rfl⟩, ?_⟩
      simpa [contains_iff] using hr
    · rintro ⟨⟨e, he, rfl⟩, hr⟩
      refine ⟨e, ⟨he, ?_⟩, rfl⟩
      simpa [contains_iff] using hr
  · intro k
    simp only [List.mem_map, List.mem_filter, contains_iff]
    constructor
    · rintro ⟨e, ⟨he, hr⟩, rfl⟩
      refine ⟨⟨e, he, rfl⟩, by simpa [contains_iff] using hr⟩
    · rintro ⟨⟨e, he, rfl⟩, hr⟩
      exact ⟨e, ⟨he, by simpa [contains_iff] using hr⟩, rfl⟩
  · simpa [buildManifest] using mergeSort_manifest_sorted
      ((validation.filesChecked.map toPuzzleEntry).map fun e =>
        ManifestEntry.mk e.date e.key)

/-- C2 witness: a one-file local set whose key already exists remotely —
every puzzle key is skipped, yet the manifest is still written from the
full validated set. -/
theorem c2_upload_reconcile_witness :
    ∃ res : UploadScriptResult,
      (runUploadScript ⟨[⟨"p/2024-01-01.json", "2024-01-01", "body"⟩], []⟩ .dev
        false ["puzzles/2024-01-01.json"] "t").1 = .ok res ∧
      (runUploadScript ⟨[⟨"p/2024-01-01.json", "2024-01-01", "body"⟩], []⟩ .dev
        false ["puzzles/2024-01-01.json"] "t").2 =
        ((([⟨"p/2024-01-01.json", "2024-01-01", "body"⟩].map toPuzzleEntry).filter
            fun e => !(List.contains ["puzzles/2024-01-01.json"] e.key)).map fun e =>
          S3Call.putObject (bucketOf .dev) e.key (.text e.contents)
            "application/json" "public, max-age=300") ++
        [S3Call.putObject (bucketOf .dev) MANIFEST_KEY
          (manifestBody (buildManifest "t"
            ([⟨"p/2024-01-01.json", "2024-01-01", "body"⟩].map toPuzzleEntry)))
          "application/json" "public, max-age=120"] ∧
      res.uploaded = (([⟨"p/2024-01-01.json", "2024-01-01", "body"⟩].map
          toPuzzleEntry).filter fun e =>
          !(List.contains ["puzzles/2024-01-01.json"] e.key)).map (fun e => e.key) ∧
      res.uploaded.Nodup ∧
      (∀ k, k ∈ res.uploaded ↔
        (k ∈ ([⟨"p/2024-01-01.json", "2024-01-01", "body"⟩].map
          toPuzzleEntry).map (fun e => e.key) ∧
          ¬ k ∈ ["puzzles/2024-01-01.json"])) ∧
      (∀ k, k ∈ res.skipped ↔
        (k ∈ ([⟨"p/2024-01-01.json", "2024-01-01", "body"⟩].map
          toPuzzleEntry).map (fun e => e.key) ∧
          k ∈ ["puzzles/2024-01-01.json"])) ∧
      res.manifestUploaded = true ∧
      (buildManifest "t"
        ([⟨"p/2024-01-01.json", "2024-01-01", "body"⟩].map
          toPuzzleEntry)).puzzles.Pairwise (fun a b => a.date ≤ b.date) :=
  c2_upload_reconcile ⟨[⟨"p/2024-01-01.json", "2024-01-01", "body"⟩], []⟩ .dev
    ["puzzles/2024-01-01.json"] "t" rfl (by decide) (by decide)

theorem listRemoteKeysGo_spec (pages : List ListPage)
    (htr : ∀ p ∈ pages.dropLast, p.isTruncated = true ∧
      ∃ t, p.nextContinuationToken = some t ∧ t ≠ "") :
    ∀ acc : List String,
      (∀ k, k ∈ listRemoteKeysGo acc pages ↔
        k ∈ acc ∨ k ∈ (pages.map pageKeys).flatten) ∧
      (acc.Nodup → (listRemoteKeysGo acc pages).Nodup) := by
  induction pages with
  | nil =>
    intro acc
    simp [listRemoteKeysGo]
  | cons p rest ih =>
    intro acc
    cases rest with
    | nil =>
      constructor
      · intro k
        cases hp : p.isTruncated <;> cases hq : p.nextContinuationToken <;>
          simp [listRemoteKeysGo, hp, hq, mem_foldl_insertSet]
      · intro hacc
        cases hp : p.isTruncated <;> cases hq : p.nextContinuationToken <;>
          simp [listRemoteKeysGo, hp, hq] <;>
          first
          | exact nodup_foldl_insertSet _ _ hacc
          | (split <;> exact nodup_foldl_insertSet _ _ hacc)
    | cons r rest' =>
      have hphead : p.isTruncated = true ∧
          ∃ t, p.nextContinuationToken = some t ∧ t ≠ "" := by
        apply htr
        simp [List.dropLast]
      obtain ⟨hp, tok, hq, htok⟩ := hphead
      have ih' := ih (by
        intro x hx
        apply htr
        simp only [List.dropLast] at hx ⊢
        exact List.mem_cons_of_mem _ hx)
      constructor
      · intro k
        rw [show listRemoteKeysGo acc (p :: r :: rest') =
          listRemoteKeysGo ((pageKeys p).foldl insertSet acc) (r :: rest') by
            simp [listRemoteKeysGo, hp, hq, htok]]
        rw [(ih' _).1 k]
        simp [mem_foldl_insertSet]
        tauto
      · intro hacc
        rw [show listRemoteKeysGo acc (p :: r :: rest') =
          listRemoteKeysGo ((pageKeys p).foldl insertSet acc) (r :: rest') by
            simp [listRemoteKeysGo, hp, hq, htok]]
        exact (ih' _).2 (nodup_foldl_insertSet _ _ hacc)

/-- C8 counterexample: two pages whose final page reports no truncation,
but whose first page already reports no truncation, so the loop stops
after one request; the second page's key is in the union of all pages'
keys but not in the result, refuting the claim as stated. -/
theorem c8_list_pagination_cex :
    (List.getLast?
        [ListPage.mk [some "puzzles/a.json"] false none,
         ListPage.mk [some "puzzles/b.json"] false none]).all
      (fun p => !p.isTruncated) = true ∧
    ¬ (∀ k, k ∈ listRemoteKeys
        [ListPage.mk [some "puzzles/a.json"] false none,
         ListPage.mk [some "puzzles/b.json"] false none] ↔
      k ∈ allPageKeys
        [ListPage.mk [some "puzzles/a.json"] false none,
         ListPage.mk [some "puzzles/b.json"] false none]) := by
  constructor
  · rfl
  · intro h
    have hb := (h "puzzles/b.json").mpr (by decide)
    exact absurd hb (by decide)

/-- C8 (amended): for every finite sequence of list pages in which every
page before the last reports truncation and carries a non-empty
continuation token (and the final page reports no truncation),
`listRemoteKeys` returns exactly the set of the present non-empty keys
of all pages, with duplicates collapsed by set semantics. -/
theorem c8_list_pagination (pages : List ListPage)
    (htr : ∀ p ∈ pages.dropLast, p.isTruncated = true ∧
      ∃ t, p.nextContinuationToken = some t ∧ t ≠ "")
    (hlast : ∀ p, pages.getLast? = some p → p.isTruncated = false) :
    (∀ k, k ∈ listRemoteKeys pages ↔ k ∈ (pages.map pageKeys).flatten) ∧
    (listRemoteKeys pages).Nodup := by
  have h := listRemoteKeysGo_spec pages htr []
  refine ⟨?_, h.2 (by simp)⟩
  intro k
  rw [listRemoteKeys, (h.1 k)]
  simp

/-- C8 witness: a truncated first page followed by a final page, with a
duplicate key across the pages. -/
theorem c8_list_pagination_witness :
    (∀ k, k ∈ listRemoteKeys
        [ListPage.mk [some "puzzles/a.json"] true (some "tok"),
         ListPage.mk [some "puzzles/a.json", some "puzzles/b.json"] false none] ↔
      k ∈ ([ListPage.mk [some "puzzles/a.json"] true (some "tok"),
         ListPage.mk [some "puzzles/a.json", some "puzzles/b.json"] false
           none].map pageKeys).flatten) ∧
    (listRemoteKeys
      [ListPage.mk [some "puzzles/a.json"] true (some "tok"),
       ListPage.mk [some "puzzles/a.json", some "puzzles/b.json"] false
         none]).Nodup :=
  c8_list_pagination _
    (by
      intro p hp
      simp only [List.dropLast, List.mem_cons, List.not_mem_nil, or_false] at hp
      subst hp
      exact ⟨rfl, "tok", rfl, by decide⟩)
    (by
      intro p hp
      simp only [List.getLast?] at hp
      cases hp
      rfl)

theorem data_getElem0_append (s t : String) (h : s.data ≠ []) :
    (s ++ t).data[0]? = s.data[0]? := by
  apply data_getElem_append_left
  cases hd : s.data with
  | nil => exact absurd hd h
  | cons c cs => simp [hd]

theorem fieldPath_cat_getElem (i : Nat) (rest : List PathPart) :
    (fieldPath (.s "categories" :: .n i :: rest)).data[10]? = some '[' := by
  show ("categories" ++ fieldPathRest (.n i :: rest)).data[10]? = some '['
  rw [data_getElem_append_right _ _ _ (by decide)]
  show ((("[" ++ toString i) ++ "]") ++ fieldPathRest rest).data[10 - 10]? = some '['
  rw [show 10 - 10 = 0 by rfl]
  rw [data_getElem0_append _ _ (by simp [String.data_append])]
  rw [data_getElem0_append _ _ (by simp [String.data_append])]
  rw [data_getElem0_append _ _ (by decide)]
  rfl

theorem fieldPath_grid_getElem (rest : List PathPart) :
    (fieldPath (.s "startGrid" :: rest)).data[0]? = some 's' := by
  show ("startGrid" ++ fieldPathRest rest).data[0]? = some 's'
  rw [data_getElem0_append _ _ (by decide)]
  rfl

set_option maxRecDepth 8192 in
theorem categoryWordStep_issues_mem (i : Nat) (st : WordsState) (j : Nat)
    (w : JValue) (x : ValidationIssue) :
    x ∈ (categoryWordStep i st j w).issues → x ∈ st.issues ∨
      x.field = fieldPath [.s "categories", .n i, .s "words", .n j] := by
  intro hx
  cases w with
  | str s =>
    simp only [categoryWordStep,
      apply_ite (fun t : WordsState => t.issues),
      apply_ite (fun t : WordsState => t.localWords),
      apply_ite (fun t : WordsState => t.seenWords),
      apply_ite (fun t : WordsState => t.globalWords),
      ite_self] at hx
    rcases hL : List.lookup (jsTrim s) st.seenWords with _ | cj <;>
      rw [hL] at hx <;>
      dsimp only at hx <;>
      (repeat' split at hx) <;>
      (try simp only [List.mem_append, List.mem_singleton, List.mem_cons,
        List.not_mem_nil, or_false, false_or, or_assoc] at hx) <;>
      (first
      | exact Or.inl hx
      | (rcases hx with hx | rfl
         · exact Or.inl hx
         · exact Or.inr rfl)
      | (rcases hx with hx | rfl | rfl
         · exact Or.inl hx
         · exact Or.inr rfl
         · exact Or.inr rfl)
      | (rcases hx with hx | rfl | rfl | rfl
         · exact Or.inl hx
         · exact Or.inr rfl
         · exact Or.inr rfl
         · exact Or.inr rfl)
      | (rcases hx with hx | rfl | rfl | rfl | rfl
         · exact Or.inl hx
         · exact Or.inr rfl
         · exact Or.inr rfl
         · exact Or.inr rfl
         · exact Or.inr rfl))
  | arr elems =>
    simp only [categoryWordStep, List.mem_append, List.mem_singleton] at hx
    rcases hx with hx | hx
    · exact Or.inl hx
    · subst hx
      exact Or.inr rfl
  | obj fields =>
    simp only [categoryWordStep, List.mem_append, List.mem_singleton] at hx
    rcases hx with hx | hx
    · exact Or.inl hx
    · subst hx
      exact Or.inr rfl
  | other =>
    simp only [categoryWordStep, List.mem_append, List.mem_singleton] at hx
    rcases hx with hx | hx
    · exact Or.inl hx
    · subst hx
      exact Or.inr rfl

theorem categoryWordsLoop_issues_mem (i : Nat) (ws : List JValue) :
    ∀ (st : WordsState) (j : Nat) (x : ValidationIssue),
      x ∈ (categoryWordsLoop i st j ws).issues →
        x ∈ st.issues ∨ x.field.data[10]? = some '[' := by
  induction ws with
  | nil =>
    intro st j x hx
    exact Or.inl hx
  | cons w ws ih =>
    intro st j x hx
    rcases ih _ (j + 1) x hx with h | h
    · rcases categoryWordStep_issues_mem i st j w x h with h2 | h2
      · exact Or.inl h2
      · right
        rw [h2]
        exact fieldPath_cat_getElem i _
    · exact Or.inr h

theorem validateCategoryWords_issues (value : Option JValue) (i : Nat)
    (sw : List (String × Nat)) (gw : List String) (x : ValidationIssue) :
    x ∈ (validateCategoryWords value i sw gw).1 →
      x.field.data[10]? = some '[' := by
  intro hx
  have hfallback : x ∈ ([(⟨fieldPath [.s "categories", .n i, .s "words"],
      "Category words must be an array of strings."⟩ : ValidationIssue)]) →
      x.field.data[10]? = some '[' := by
    intro h
    simp only [List.mem_singleton] at h
    subst h
    exact fieldPath_cat_getElem i _
  cases value with
  | none => exact hfallback hx
  | some v =>
    cases v with
    | str s => exact hfallback hx
    | obj fields => exact hfallback hx
    | other => exact hfallback hx
    | arr ws =>
      by_cases hlen : ws.length ≠ 4
      · simp only [validateCategoryWords, if_pos hlen, List.mem_singleton] at hx
        subst hx
        exact fieldPath_cat_getElem i _
      · simp only [validateCategoryWords, if_neg hlen] at hx
        rcases categoryWordsLoop_issues_mem i ws _ 0 x hx with h | h
        · exact absurd h (List.not_mem_nil x)
        · exact h

theorem validateCategoryId_issue_field (value : Option JValue) (i : Nat)
    (seen : List String) (y : ValidationIssue)
    (h : (validateCategoryId value i seen).1 = some y) :
    y.field.data[10]? = some '[' := by
  have hself : y.field = fieldPath [.s "categories", .n i, .s "id"] →
      y.field.data[10]? = some '[' := by
    intro he
    rw [he]
    exact fieldPath_cat_getElem i _
  cases value with
  | none =>
    simp only [validateCategoryId] at h
    cases h
    exact hself rfl
  | some v =>
    cases v with
    | str s =>
      simp only [validateCategoryId] at h
      split at h
      · cases h
        exact hself rfl
      · split at h
        · cases h
          exact hself rfl
        · cases h
    | arr es =>
      simp only [validateCategoryId] at h
      cases h
      exact hself rfl
    | obj fs =>
      simp only [validateCategoryId] at h
      cases h
      exact hself rfl
    | other =>
      simp only [validateCategoryId] at h
      cases h
      exact hself rfl

theorem validateCategoryColor_issue_field (value : Option JValue) (i : Nat)
    (y : ValidationIssue)
    (h : validateCategoryColor value i = some y) :
    y.field.data[10]? = some '[' := by
  have hself : y.field = fieldPath [.s "categories", .n i, .s "color"] →
      y.field.data[10]? = some '[' := by
    intro he
    rw [he]
    exact fieldPath_cat_getElem i _
  cases value with
  | none =>
    simp only [validateCategoryColor] at h
    cases h
    exact hself rfl
  | some v =>
    cases v with
    | str s =>
      simp only [validateCategoryColor] at h
      split at h
      · cases h
      · cases h
        exact hself rfl
    | arr es =>
      simp only [validateCategoryColor] at h
      cases h
      exact hself rfl
    | obj fs =>
      simp only [validateCategoryColor] at h
      cases h
      exact hself rfl
    | other =>
      simp only [validateCategoryColor] at h
      cases h
      exact hself rfl

set_option maxRecDepth 8192 in
set_option maxHeartbeats 2000000 in
theorem processCategory_issues_mem (st : CatState) (i : Nat) (cat : JValue)
    (x : ValidationIssue) :
    x ∈ (processCategory st i cat).issues →
      x ∈ st.issues ∨ x.field.data[10]? = some '[' := by
  intro hx
  cases cat with
  | str s =>
    simp only [processCategory, List.mem_append, List.mem_singleton] at hx
    rcases hx with hx | rfl
    · exact Or.inl hx
    · exact Or.inr (fieldPath_cat_getElem i _)
  | arr es =>
    simp only [processCategory, List.mem_append, List.mem_singleton] at hx
    rcases hx with hx | rfl
    · exact Or.inl hx
    · exact Or.inr (fieldPath_cat_getElem i _)
  | other =>
    simp only [processCategory, List.mem_append, List.mem_singleton] at hx
    rcases hx with hx | rfl
    · exact Or.inl hx
    · exact Or.inr (fieldPath_cat_getElem i _)
  | obj fields =>
    simp only [processCategory] at hx
    rcases hid : validateCategoryId (jGet fields "id") i st.seenIds with ⟨oi, seen2⟩
    rw [hid] at hx
    rcases oi with _ | ii <;>
      rcases hcol : validateCategoryColor (jGet fields "color") i with _ | ci <;>
      rw [hcol] at hx <;>
      (try rcases hjc : jGet fields "color" with _ | jv) <;>
      (try rw [hjc] at hx) <;>
      (try cases jv) <;>
      dsimp only at hx <;>
      simp only [apply_ite (fun t : CatState => t.issues),
        apply_ite (fun t : CatState => t.seenIds),
        apply_ite (fun t : CatState => t.seenWords),
        apply_ite (fun t : CatState => t.colorCounts),
        apply_ite (fun t : CatState => t.words),
        ite_self] at hx <;>
      (rcases List.mem_append.mp hx with h | h
       · (repeat' split at h) <;>
         (try simp only [List.mem_append, List.mem_singleton, List.mem_cons,
            List.not_mem_nil, or_false, false_or, or_assoc] at h) <;>
         (first
          | exact Or.inl h
          | exact Or.inr (fieldPath_cat_getElem i _)
          | exact Or.inr (validateCategoryId_issue_field _ _ _ _ (congrArg Prod.fst hid))
          | exact Or.inr (validateCategoryColor_issue_field _ _ _ hcol)
          | (rcases h with h | rfl
             · exact Or.inl h
             · first
               | exact Or.inr (fieldPath_cat_getElem i _)
               | exact Or.inr (validateCategoryId_issue_field _ _ _ _ (congrArg Prod.fst hid))
               | exact Or.inr (validateCategoryColor_issue_field _ _ _ hcol))
          | (rcases h with h | rfl | rfl
             · exact Or.inl h
             · first
               | exact Or.inr (fieldPath_cat_getElem i _)
               | exact Or.inr (validateCategoryId_issue_field _ _ _ _ (congrArg Prod.fst hid))
               | exact Or.inr (validateCategoryColor_issue_field _ _ _ hcol)
             · first
               | exact Or.inr (fieldPath_cat_getElem i _)
               | exact Or.inr (validateCategoryId_issue_field _ _ _ _ (congrArg Prod.fst hid))
               | exact Or.inr (validateCategoryColor_issue_field _ _ _ hcol))
          | (rcases h with h | rfl | rfl | rfl
             · exact Or.inl h
             · first
               | exact Or.inr (fieldPath_cat_getElem i _)
               | exact Or.inr (validateCategoryId_issue_field _ _ _ _ (congrArg Prod.fst hid))
               | exact Or.inr (validateCategoryColor_issue_field _ _ _ hcol)
             · first
               | exact Or.inr (fieldPath_cat_getElem i _)
               | exact Or.inr (validateCategoryId_issue_field _ _ _ _ (congrArg Prod.fst hid))
               | exact Or.inr (validateCategoryColor_issue_field _ _ _ hcol)
             · first
               | exact Or.inr (fieldPath_cat_getElem i _)
               | exact Or.inr (validateCategoryId_issue_field _ _ _ _ (congrArg Prod.fst hid))
               | exact Or.inr (validateCategoryColor_issue_field _ _ _ hcol)))
       · exact Or.inr (validateCategoryWords_issues _ _ _ _ x h))

theorem categoriesLoop_issues_mem (cats : List JValue) :
    ∀ (st : CatState) (i : Nat) (x : ValidationIssue),
      x ∈ (categoriesLoop st i cats).issues →
        x ∈ st.issues ∨ x.field.data[10]? = some '[' := by
  induction cats with
  | nil =>
    intro st i x hx
    exact Or.inl hx
  | cons cat cats ih =>
    intro st i x hx
    rcases ih _ (i + 1) x hx with h | h
    · exact processCategory_issues_mem st i cat x h
    · exact Or.inr h

set_option maxRecDepth 8192 in
theorem startGridEntryStep_issues_mem (st : GridState) (j : Nat) (e : JValue)
    (x : ValidationIssue) :
    x ∈ (startGridEntryStep st j e).issues →
      x ∈ st.issues ∨ x.field = fieldPath [.s "startGrid", .n j] := by
  intro hx
  cases e with
  | str s =>
    simp only [startGridEntryStep,
      apply_ite (fun t : GridState => t.issues),
      apply_ite (fun t : GridState => t.seen),
      ite_self] at hx
    (repeat' split at hx) <;>
      (try simp only [List.mem_append, List.mem_singleton, List.mem_cons,
        List.not_mem_nil, or_false, false_or, or_assoc] at hx) <;>
      (first
      | exact Or.inl hx
      | (rcases hx with hx | rfl
         · exact Or.inl hx
         · exact Or.inr rfl)
      | (rcases hx with hx | rfl | rfl
         · exact Or.inl hx
         · exact Or.inr rfl
         · exact Or.inr rfl)
      | (rcases hx with hx | rfl | rfl | rfl
         · exact Or.inl hx
         · exact Or.inr rfl
         · exact Or.inr rfl
         · exact Or.inr rfl))
  | arr es =>
    simp only [startGridEntryStep, List.mem_append, List.mem_singleton] at hx
    rcases hx with hx | rfl
    · exact Or.inl hx
    · exact Or.inr rfl
  | obj fs =>
    simp only [startGridEntryStep, List.mem_append, List.mem_singleton] at hx
    rcases hx with hx | rfl
    · exact Or.inl hx
    · exact Or.inr rfl
  | other =>
    simp only [startGridEntryStep, List.mem_append, List.mem_singleton] at hx
    rcases hx with hx | rfl
    · exact Or.inl hx
    · exact Or.inr rfl

theorem startGridLoop_issues_mem (es : List JValue) :
    ∀ (st : GridState) (j : Nat) (x : ValidationIssue),
      x ∈ (startGridLoop st j es).issues →
        x ∈ st.issues ∨ x.field.data[0]? = some 's' := by
  induction es with
  | nil =>
    intro st j x hx
    exact Or.inl hx
  | cons e es ih =>
    intro st j x hx
    rcases ih _ (j + 1) x hx with h | h
    · rcases startGridEntryStep_issues_mem st j e x h with h2 | h2
      · exact Or.inl h2
      · right
        rw [h2]
        exact fieldPath_grid_getElem _
    · exact Or.inr h

theorem validateStartingOrder_issues (value : Option JValue)
    (expectedWords : List String) (x : ValidationIssue) :
    x ∈ validateStartingOrder value expectedWords →
      x.field.data[0]? = some 's' := by
  intro hx
  have hsg : (("startGrid" : String).data)[0]? = some 's' := rfl
  cases value with
  | none =>
    simp only [validateStartingOrder, List.mem_singleton] at hx
    subst hx
    exact hsg
  | some v =>
    cases v with
    | str s =>
      simp only [validateStartingOrder, List.mem_singleton] at hx
      subst hx
      exact hsg
    | obj fs =>
      simp only [validateStartingOrder, List.mem_singleton] at hx
      subst hx
      exact hsg
    | other =>
      simp only [validateStartingOrder, List.mem_singleton] at hx
      subst hx
      exact hsg
    | arr es =>
      simp only [validateStartingOrder] at hx
      (repeat' split at hx) <;>
        (try simp only [List.mem_append, List.mem_singleton, List.mem_cons,
          List.not_mem_nil, or_false, false_or, or_assoc] at hx) <;>
        (first
        | (rcases startGridLoop_issues_mem es _ 0 x hx with h | h
           · exact absurd h (List.not_mem_nil x)
           · exact h)
        | (rcases hx with hx | rfl
           · rcases startGridLoop_issues_mem es _ 0 x hx with h | h
             · exact absurd h (List.not_mem_nil x)
             · exact h
           · exact hsg)
        | (rcases hx with hx | rfl | rfl
           · rcases startGridLoop_issues_mem es _ 0 x hx with h | h
             · exact absurd h (List.not_mem_nil x)
             · exact h
           · exact hsg
           · exact hsg)
        | (rcases hx with hx | rfl | rfl | rfl
           · rcases startGridLoop_issues_mem es _ 0 x hx with h | h
             · exact absurd h (List.not_mem_nil x)
             · exact h
           · exact hsg
           · exact hsg
           · exact hsg))

theorem validateDate_field (value : Option JValue) (context : ValidationContext)
    (x : ValidationIssue) :
    x ∈ validateDate value context → x.field = "date" := by
  intro hx
  cases value with
  | none =>
    simp only [validateDate, List.mem_singleton] at hx
    subst hx
    rfl
  | some v =>
    cases v with
    | str s =>
      simp only [validateDate] at hx
      (repeat' split at hx) <;>
        (try simp only [List.mem_singleton, List.not_mem_nil] at hx) <;>
        first
        | exact absurd hx (by exact id)
        | (subst hx; rfl)
        | exact absurd hx (List.not_mem_nil x)
    | arr es =>
      simp only [validateDate, List.mem_singleton] at hx
      subst hx
      rfl
    | obj fs =>
      simp only [validateDate, List.mem_singleton] at hx
      subst hx
      rfl
    | other =>
      simp only [validateDate, List.mem_singleton] at hx
      subst hx
      rfl

theorem validateRootKeys_msg (fields : List (String × JValue))
    (x : ValidationIssue) :
    x ∈ validateRootKeys fields → x.message = "Unexpected property." := by
  induction fields with
  | nil =>
    intro hx
    exact absurd hx (List.not_mem_nil x)
  | cons a fs ih =>
    obtain ⟨k, v⟩ := a
    intro hx
    simp only [validateRootKeys] at hx
    split at hx
    · simp only [List.nil_append] at hx
      exact ih hx
    · simp only [List.cons_append, List.mem_cons, List.nil_append] at hx
      rcases hx with rfl | hx
      · rfl
      · exact ih hx

theorem processCategory_colorCounts (st : CatState) (i : Nat) (cat : JValue)
    (c : String) :
    List.lookup c (processCategory st i cat).colorCounts =
      if countsColor c cat then
        some ((List.lookup c st.colorCounts).getD 0 + 1)
      else List.lookup c st.colorCounts := by
  cases cat with
  | str s => simp [processCategory, countsColor]
  | arr es => simp [processCategory, countsColor]
  | other => simp [processCategory, countsColor]
  | obj fields =>
    rcases hjc : jGet fields "color" with _ | jv
    · simp [processCategory, countsColor, hjc, validateCategoryColor,
        apply_ite (fun t : CatState => t.colorCounts), ite_self]
    · cases jv with
      | str s =>
        by_cases hmem : s ∈ CATEGORY_COLORS
        · simp only [processCategory, countsColor, hjc, validateCategoryColor,
            contains_iff, hmem, if_true]
          simp only [apply_ite (fun t : CatState => t.colorCounts), ite_self]
          rw [lookup_mapSet]
          by_cases hsc : c = s
          · subst hsc
            simp [hmem]
          · rw [if_neg hsc]
            simp [Ne.symm hsc]
        · simp only [processCategory, countsColor, hjc, validateCategoryColor,
            contains_iff, hmem, if_false]
          simp only [apply_ite (fun t : CatState => t.colorCounts), ite_self]
          simp [hmem]
      | arr es =>
        simp [processCategory, countsColor, hjc, validateCategoryColor,
          apply_ite (fun t : CatState => t.colorCounts), ite_self]
      | obj fs =>
        simp [processCategory, countsColor, hjc, validateCategoryColor,
          apply_ite (fun t : CatState => t.colorCounts), ite_self]
      | other =>
        simp [processCategory, countsColor, hjc, validateCategoryColor,
          apply_ite (fun t : CatState => t.colorCounts), ite_self]

theorem categoriesLoop_colorCounts (cats : List JValue) :
    ∀ (st : CatState) (i : Nat) (c : String),
      (List.lookup c (categoriesLoop st i cats).colorCounts).getD 0 =
        (List.lookup c st.colorCounts).getD 0 + colorOccurrences cats c := by
  induction cats with
  | nil =>
    intro st i c
    simp [categoriesLoop, colorOccurrences]
  | cons cat cats ih =>
    intro st i c
    simp only [categoriesLoop]
    rw [ih, processCategory_colorCounts]
    simp only [colorOccurrences, List.filter_cons]
    by_cases h : countsColor c cat = true
    · rw [if_pos h, if_pos h]
      simp only [Option.getD_some, List.length_cons]
      omega
    · rw [if_neg h, if_neg h]

theorem colorCountMsg_getElemLow (c : String) (n : Nat) (i : Nat)
    (h : i < 22) :
    (colorCountMsg c n).data[i]? = ("Expected exactly one \x27" : String).data[i]? := by
  have h22 : ("Expected exactly one \x27" : String).data.length = 22 := by decide
  have h1 : i < ("Expected exactly one \x27" ++ c).data.length := by
    rw [String.data_append, List.length_append, h22]
    omega
  have h2 : i < (("Expected exactly one \x27" ++ c) ++ "\x27 category; found ").data.length := by
    rw [String.data_append, List.length_append]
    omega
  have h3 : i < ((("Expected exactly one \x27" ++ c) ++ "\x27 category; found ") ++ toString n).data.length := by
    rw [String.data_append, List.length_append]
    omega
  have h0 : i < ("Expected exactly one \x27" : String).data.length := by
    rw [h22]
    omega
  show (((("Expected exactly one \x27" ++ c) ++ "\x27 category; found ") ++
      toString n) ++ ".").data[i]? = _
  rw [data_getElem_append_left _ _ _ h3, data_getElem_append_left _ _ _ h2,
    data_getElem_append_left _ _ _ h1, data_getElem_append_left _ _ _ h0]

theorem colorCountMsg_getElem0 (c : String) (n : Nat) :
    (colorCountMsg c n).data[0]? = some 'E' := by
  rw [colorCountMsg_getElemLow c n 0 (by omega)]
  decide

theorem colorCountMsg_getElem17 (c : String) (n : Nat) :
    (colorCountMsg c n).data[17]? = some 'o' := by
  rw [colorCountMsg_getElemLow c n 17 (by omega)]
  decide

theorem colorCountMsg_getElem22 (c : String) (n : Nat) (h : c.data ≠ []) :
    (colorCountMsg c n).data[22]? = c.data[0]? := by
  have hc : 0 < c.data.length := List.length_pos.mpr h
  have h22 : ("Expected exactly one \x27" : String).data.length = 22 := by decide
  have h1 : 22 < ("Expected exactly one \x27" ++ c).data.length := by
    rw [String.data_append, List.length_append, h22]
    omega
  have h2 : 22 < (("Expected exactly one \x27" ++ c) ++ "\x27 category; found ").data.length := by
    rw [String.data_append, List.length_append]
    omega
  have h3 : 22 < ((("Expected exactly one \x27" ++ c) ++ "\x27 category; found ") ++ toString n).data.length := by
    rw [String.data_append, List.length_append]
    omega
  show (((("Expected exactly one \x27" ++ c) ++ "\x27 category; found ") ++
      toString n) ++ ".").data[22]? = c.data[0]?
  rw [data_getElem_append_left _ _ _ h3, data_getElem_append_left _ _ _ h2,
    data_getElem_append_left _ _ _ h1,
    data_getElem_append_right _ _ _ (le_of_eq h22), h22]

theorem colorCountMsg_inj (c1 c2 : String) (n1 n2 : Nat)
    (h1 : c1 ∈ CATEGORY_COLORS) (h2 : c2 ∈ CATEGORY_COLORS)
    (he : colorCountMsg c1 n1 = colorCountMsg c2 n2) : c1 = c2 := by
  have e1 : c1 = "yellow" ∨ c1 = "green" ∨ c1 = "blue" ∨ c1 = "purple" := by
    simpa [CATEGORY_COLORS] using h1
  have e2 : c2 = "yellow" ∨ c2 = "green" ∨ c2 = "blue" ∨ c2 = "purple" := by
    simpa [CATEGORY_COLORS] using h2
  have g1 : (colorCountMsg c1 n1).data[22]? = c1.data[0]? :=
    colorCountMsg_getElem22 c1 n1 (by rcases e1 with rfl | rfl | rfl | rfl <;> decide)
  have g2 : (colorCountMsg c2 n2).data[22]? = c2.data[0]? :=
    colorCountMsg_getElem22 c2 n2 (by rcases e2 with rfl | rfl | rfl | rfl <;> decide)
  rw [he, g2] at g1
  rcases e1 with rfl | rfl | rfl | rfl <;> rcases e2 with rfl | rfl | rfl | rfl <;>
    first
    | rfl
    | exact absurd g1 (by decide)

theorem msgFourCats_getElem17 (n : Nat) :
    (("Expected exactly 4 categories, received " ++ toString n ++ ".") : String).data[17]? =
      some '4' := by
  have hp : ("Expected exactly 4 categories, received " : String).data.length = 40 := by
    decide
  have h1 : 17 < ("Expected exactly 4 categories, received " ++ toString n).data.length := by
    rw [String.data_append, List.length_append, hp]
    omega
  rw [data_getElem_append_left _ _ _ h1,
    data_getElem_append_left _ _ _ (by rw [hp]; omega)]
  decide

theorem msgWords16_getElem0 (n : Nat) :
    (("Categories should define 16 unique words; found " ++ toString n ++ ".") : String).data[0]? =
      some 'C' := by
  have hp : 0 < ("Categories should define 16 unique words; found " : String).data.length := by
    decide
  have h1 : 0 < ("Categories should define 16 unique words; found " ++ toString n).data.length := by
    rw [String.data_append, List.length_append]
    omega
  rw [data_getElem_append_left _ _ _ h1, data_getElem_append_left _ _ _ hp]
  decide

theorem colorFilterMap_not_mem (l : List String)
    (hsub : ∀ x ∈ l, x ∈ CATEGORY_COLORS)
    (f : String → Nat) (c : String) (hcc : c ∈ CATEGORY_COLORS) (hnotin : c ∉ l) :
    ValidationIssue.mk "categories" (colorCountMsg c (f c)) ∉
      l.filterMap fun color =>
        if f color ≠ 1 then
          some (ValidationIssue.mk "categories" (colorCountMsg color (f color)))
        else none := by
  intro hmem
  rcases List.mem_filterMap.mp hmem with ⟨color, hcl, heq⟩
  split at heq
  · have hmsg : colorCountMsg color (f color) = colorCountMsg c (f c) :=
      congrArg ValidationIssue.message (Option.some.inj heq)
    have := colorCountMsg_inj color c (f color) (f c) (hsub color hcl) hcc hmsg
    exact hnotin (this ▸ hcl)
  · exact Option.noConfusion heq

theorem count_colorFilterMap (l : List String) :
    l.Nodup → (∀ x ∈ l, x ∈ CATEGORY_COLORS) →
    ∀ (f : String → Nat) (c : String), c ∈ l → c ∈ CATEGORY_COLORS → f c ≠ 1 →
    List.count (ValidationIssue.mk "categories" (colorCountMsg c (f c)))
      (l.filterMap fun color =>
        if f color ≠ 1 then
          some (ValidationIssue.mk "categories" (colorCountMsg color (f color)))
        else none) = 1 := by
  induction l with
  | nil =>
    intro _ _ f c hc
    exact absurd hc (List.not_mem_nil c)
  | cons a l ih =>
    intro hnd hsub f c hc hcc hne
    have hndl : l.Nodup := (List.nodup_cons.mp hnd).2
    have hal : a ∉ l := (List.nodup_cons.mp hnd).1
    have hsubl : ∀ x ∈ l, x ∈ CATEGORY_COLORS := fun x hx => hsub x (List.mem_cons_of_mem a hx)
    rcases List.mem_cons.mp hc with rfl | hc2
    · have hfm : (List.filterMap (fun color =>
          if f color ≠ 1 then
            some (ValidationIssue.mk "categories" (colorCountMsg color (f color)))
          else none) (c :: l)) =
          ValidationIssue.mk "categories" (colorCountMsg c (f c)) ::
            List.filterMap (fun color =>
              if f color ≠ 1 then
                some (ValidationIssue.mk "categories" (colorCountMsg color (f color)))
              else none) l := List.filterMap_cons_some (if_pos hne)
      rw [hfm, List.count_cons_self]
      have hzero : List.count (ValidationIssue.mk "categories" (colorCountMsg c (f c)))
          (l.filterMap fun color =>
            if f color ≠ 1 then
              some (ValidationIssue.mk "categories" (colorCountMsg color (f color)))
            else none) = 0 :=
        List.count_eq_zero.mpr (colorFilterMap_not_mem l hsubl f c hcc hal)
      rw [hzero]
    · have hac : a ≠ c := fun e => hal (e ▸ hc2)
      by_cases hfa : f a ≠ 1
      · have hfm : (List.filterMap (fun color =>
            if f color ≠ 1 then
              some (ValidationIssue.mk "categories" (colorCountMsg color (f color)))
            else none) (a :: l)) =
            ValidationIssue.mk "categories" (colorCountMsg a (f a)) ::
              List.filterMap (fun color =>
                if f color ≠ 1 then
                  some (ValidationIssue.mk "categories" (colorCountMsg color (f color)))
                else none) l := List.filterMap_cons_some (if_pos hfa)
        rw [hfm]
        rw [List.count_cons_of_ne, ih hndl hsubl f c hc2 hcc hne]
        intro e
        have hmsg : colorCountMsg c (f c) = colorCountMsg a (f a) :=
          congrArg ValidationIssue.message e
        exact hac (colorCountMsg_inj a c (f a) (f c)
          (hsub a (List.mem_cons_self a l)) hcc
          (Eq.symm hmsg))
      · have hfm : (List.filterMap (fun color =>
            if f color ≠ 1 then
              some (ValidationIssue.mk "categories" (colorCountMsg color (f color)))
            else none) (a :: l)) =
            List.filterMap (fun color =>
              if f color ≠ 1 then
                some (ValidationIssue.mk "categories" (colorCountMsg color (f color)))
              else none) l := List.filterMap_cons_none (if_neg hfa)
        rw [hfm]
        exact ih hndl hsubl f c hc2 hcc hne

theorem validateCategories_color_count (cats : List JValue) (c : String)
    (hc : c ∈ CATEGORY_COLORS) (hne : colorOccurrences cats c ≠ 1) :
    List.count
      (ValidationIssue.mk "categories" (colorCountMsg c (colorOccurrences cats c)))
      (validateCategories (some (.arr cats))).1 = 1 := by
  simp only [validateCategories]
  set st := categoriesLoop
    (CatState.mk
      (if cats.length ≠ 4 then
        [ValidationIssue.mk "categories"
          ("Expected exactly 4 categories, received " ++ toString cats.length ++ ".")]
      else []) [] [] [] []) 0 cats with hst
  have hloop : ValidationIssue.mk "categories"
      (colorCountMsg c (colorOccurrences cats c)) ∉ st.issues := by
    intro hmem
    rw [hst] at hmem
    rcases categoriesLoop_issues_mem cats _ 0 _ hmem with h | h
    · by_cases h4 : cats.length ≠ 4
      · rw [if_pos h4] at h
        have hmsg : colorCountMsg c (colorOccurrences cats c) =
            "Expected exactly 4 categories, received " ++ toString cats.length ++ "." :=
          congrArg ValidationIssue.message (List.mem_singleton.mp h)
        have h3 : (colorCountMsg c (colorOccurrences cats c)).data[17]? =
            (("Expected exactly 4 categories, received " ++ toString cats.length ++ ".") : String).data[17]? := by
          rw [hmsg]
        rw [colorCountMsg_getElem17, msgFourCats_getElem17] at h3
        exact absurd h3 (by decide)
      · rw [if_neg h4] at h
        exact absurd h (List.not_mem_nil _)
    · have h4 : ("categories" : String).data[10]? = some '[' := h
      exact absurd h4 (by decide)
  have hfc : (List.lookup c st.colorCounts).getD 0 = colorOccurrences cats c := by
    rw [hst, categoriesLoop_colorCounts]
    simp [List.lookup]
  have hcount := count_colorFilterMap CATEGORY_COLORS (by decide) (fun x hx => hx)
    (fun color => (List.lookup color st.colorCounts).getD 0) c hc hc
    (by show (List.lookup c st.colorCounts).getD 0 ≠ 1; rw [hfc]; exact hne)
  simp only [] at hcount
  rw [hfc] at hcount
  rw [List.count_append]
  have hzero : List.count
      (ValidationIssue.mk "categories" (colorCountMsg c (colorOccurrences cats c)))
      (if st.words.length ≠ 16 then
        st.issues ++ [ValidationIssue.mk "categories"
          ("Categories should define 16 unique words; found " ++
            toString st.words.length ++ ".")]
      else st.issues) = 0 := by
    apply List.count_eq_zero.mpr
    split
    · intro hmem
      rcases List.mem_append.mp hmem with h | h
      · exact hloop h
      · have hmsg : colorCountMsg c (colorOccurrences cats c) =
            "Categories should define 16 unique words; found " ++
              toString st.words.length ++ "." :=
          congrArg ValidationIssue.message (List.mem_singleton.mp h)
        have h3 : (colorCountMsg c (colorOccurrences cats c)).data[0]? =
            (("Categories should define 16 unique words; found " ++
              toString st.words.length ++ ".") : String).data[0]? := by
          rw [hmsg]
        rw [colorCountMsg_getElem0, msgWords16_getElem0] at h3
        exact absurd h3 (by decide)
    · exact hloop
  rw [hzero, hcount]

/-- **C6**: for every document whose `categories` field is an array, and
every color of `CATEGORY_COLORS` whose occurrence count among the
categories differs from 1, `validatePuzzle` emits exactly one issue on
field `categories` whose message names that color and the count found. -/
theorem c6_color_count_issue (fields : List (String × JValue)) (cats : List JValue)
    (context : ValidationContext) (c : String)
    (hcats : jGet fields "categories" = some (.arr cats))
    (hc : c ∈ CATEGORY_COLORS)
    (hne : colorOccurrences cats c ≠ 1) :
    List.count
      (ValidationIssue.mk "categories" (colorCountMsg c (colorOccurrences cats c)))
      (validatePuzzle (.obj fields) context) = 1 := by
  simp only [validatePuzzle, hcats]
  rw [List.count_append, List.count_append, List.count_append]
  have hdate : List.count
      (ValidationIssue.mk "categories" (colorCountMsg c (colorOccurrences cats c)))
      (validateDate (jGet fields "date") context) = 0 := by
    apply List.count_eq_zero.mpr
    intro hmem
    have h2 : ("categories" : String) = "date" := validateDate_field _ _ _ hmem
    exact absurd h2 (by decide)
  have hgrid : List.count
      (ValidationIssue.mk "categories" (colorCountMsg c (colorOccurrences cats c)))
      (validateStartingOrder (jGet fields "startGrid")
        (validateCategories (some (.arr cats))).2) = 0 := by
    apply List.count_eq_zero.mpr
    intro hmem
    have h2 : ("categories" : String).data[0]? = some 's' :=
      validateStartingOrder_issues _ _ _ hmem
    exact absurd h2 (by decide)
  have hroot : List.count
      (ValidationIssue.mk "categories" (colorCountMsg c (colorOccurrences cats c)))
      (validateRootKeys fields) = 0 := by
    apply List.count_eq_zero.mpr
    intro hmem
    have h2 : colorCountMsg c (colorOccurrences cats c) = "Unexpected property." :=
      validateRootKeys_msg _ _ hmem
    have h3 : (colorCountMsg c (colorOccurrences cats c)).data[0]? =
        ("Unexpected property." : String).data[0]? := by
      rw [h2]
    rw [colorCountMsg_getElem0] at h3
    exact absurd h3 (by decide)
  rw [hdate, hgrid, hroot, validateCategories_color_count cats c hc hne]

/-- Witness for C6: the document with two `green` and zero `yellow`
categories yields exactly one issue naming green with count 2 and exactly
one naming yellow with count 0. -/
theorem c6_color_count_issue_witness :
    (jGet exFieldsTwoGreen "categories" = some (.arr exCatsTwoGreen) ∧
      "green" ∈ CATEGORY_COLORS ∧ colorOccurrences exCatsTwoGreen "green" ≠ 1 ∧
      List.count
        (ValidationIssue.mk "categories"
          (colorCountMsg "green" (colorOccurrences exCatsTwoGreen "green")))
        (validatePuzzle (.obj exFieldsTwoGreen) ⟨none⟩) = 1) ∧
    (jGet exFieldsTwoGreen "categories" = some (.arr exCatsTwoGreen) ∧
      "yellow" ∈ CATEGORY_COLORS ∧ colorOccurrences exCatsTwoGreen "yellow" ≠ 1 ∧
      List.count
        (ValidationIssue.mk "categories"
          (colorCountMsg "yellow" (colorOccurrences exCatsTwoGreen "yellow")))
        (validatePuzzle (.obj exFieldsTwoGreen) ⟨none⟩) = 1) ∧
    colorOccurrences exCatsTwoGreen "green" = 2 ∧
    colorOccurrences exCatsTwoGreen "yellow" = 0 :=
  ⟨⟨rfl, by decide, by decide,
      c6_color_count_issue exFieldsTwoGreen exCatsTwoGreen ⟨none⟩ "green"
        rfl (by decide) (by decide)⟩,
    ⟨rfl, by decide, by decide,
      c6_color_count_issue exFieldsTwoGreen exCatsTwoGreen ⟨none⟩ "yellow"
        rfl (by decide) (by decide)⟩,
    by decide, by decide⟩

theorem jsTrim_data (s : String) :
    (jsTrim s).data =
      List.rdropWhile Char.isWhitespace
        (List.dropWhile Char.isWhitespace s.data) := by
  simp [jsTrim, List.rdropWhile]

theorem jsTrim_idem (s : String) : jsTrim (jsTrim s) = jsTrim s := by
  apply String.ext
  rw [jsTrim_data, jsTrim_data]
  have hdw : List.dropWhile Char.isWhitespace
      (List.rdropWhile Char.isWhitespace
        (List.dropWhile Char.isWhitespace s.data)) =
      List.rdropWhile Char.isWhitespace
        (List.dropWhile Char.isWhitespace s.data) := by
    rw [List.dropWhile_eq_self_iff]
    intro hl hget
    obtain ⟨t, ht⟩ := List.rdropWhile_prefix Char.isWhitespace
      (List.dropWhile Char.isWhitespace s.data)
    have hA0 : 0 < (List.dropWhile Char.isWhitespace s.data).length := by
      rw [← ht, List.length_append]
      omega
    have h0 : (List.dropWhile Char.isWhitespace s.data)[0]? =
        (List.rdropWhile Char.isWhitespace
          (List.dropWhile Char.isWhitespace s.data))[0]? := by
      conv_lhs => rw [← ht]
      rw [List.getElem?_append, if_pos hl]
    rw [List.getElem?_eq_getElem hA0, List.getElem?_eq_getElem hl] at h0
    have h3 := Option.some.inj h0
    apply List.dropWhile_get_zero_not Char.isWhitespace s.data hA0
    simp only [List.get_eq_getElem] at hget ⊢
    rw [h3]
    exact hget
  rw [hdw, List.rdropWhile_idempotent]

theorem categoryWordStep_issues_mono (ci : Nat) (st : WordsState) (k : Nat)
    (w : JValue) (x : ValidationIssue) (hx : x ∈ st.issues) :
    x ∈ (categoryWordStep ci st k w).issues := by
  cases w with
  | str s =>
    simp only [categoryWordStep,
      apply_ite (fun t : WordsState => t.issues), ite_self]
    repeat' split
    all_goals simp [hx]
  | arr es => exact List.mem_append_left _ hx
  | obj fs => exact List.mem_append_left _ hx
  | other => exact List.mem_append_left _ hx

theorem categoryWordsLoop_issues_mono (ws : List JValue) :
    ∀ (ci : Nat) (st : WordsState) (k : Nat) (x : ValidationIssue),
      x ∈ st.issues → x ∈ (categoryWordsLoop ci st k ws).issues := by
  induction ws with
  | nil =>
    intro ci st k x hx
    exact hx
  | cons w ws ih =>
    intro ci st k x hx
    exact ih ci _ (k + 1) x (categoryWordStep_issues_mono ci st k w x hx)

theorem startGridEntryStep_issues_mono (st : GridState) (k : Nat)
    (e : JValue) (x : ValidationIssue) (hx : x ∈ st.issues) :
    x ∈ (startGridEntryStep st k e).issues := by
  cases e with
  | str s =>
    simp only [startGridEntryStep,
      apply_ite (fun t : GridState => t.issues), ite_self]
    repeat' split
    all_goals simp [hx]
  | arr es => exact List.mem_append_left _ hx
  | obj fs => exact List.mem_append_left _ hx
  | other => exact List.mem_append_left _ hx

theorem startGridLoop_issues_mono (es : List JValue) :
    ∀ (st : GridState) (k : Nat) (x : ValidationIssue),
      x ∈ st.issues → x ∈ (startGridLoop st k es).issues := by
  induction es with
  | nil =>
    intro st k x hx
    exact hx
  | cons e es ih =>
    intro st k x hx
    exact ih _ (k + 1) x (startGridEntryStep_issues_mono st k e x hx)

theorem categoryWordStep_lookup (ci : Nat) (st : WordsState) (k : Nat)
    (w : JValue) (t : String) (j : Nat)
    (hlk : List.lookup t st.seenWords = some j) (hj : j ≠ ci) :
    List.lookup t (categoryWordStep ci st k w).seenWords = some j := by
  cases w with
  | arr es => exact hlk
  | obj fs => exact hlk
  | other => exact hlk
  | str s =>
    simp only [categoryWordStep,
      apply_ite (fun u : WordsState => u.seenWords), ite_self]
    split
    · exact hlk
    · split
      · next e heq =>
        simp only [apply_ite (fun u : WordsState => u.seenWords), ite_self]
        split
        · exact hlk
        · next hne =>
          rw [lookup_mapSet]
          by_cases hts : t = jsTrim s
          · subst hts
            rw [hlk] at heq
            have hje : j = e := Option.some.inj heq
            have hec : e = ci := not_ne_iff.mp hne
            exact absurd (hje.trans hec) hj
          · rw [if_neg hts]
            exact hlk
      · next heq =>
        simp only [apply_ite (fun u : WordsState => u.seenWords), ite_self]
        rw [lookup_mapSet]
        by_cases hts : t = jsTrim s
        · subst hts
          rw [hlk] at heq
          exact Option.noConfusion heq
        · rw [if_neg hts]
          exact hlk

theorem categoryWordsLoop_lookup (ws : List JValue) :
    ∀ (ci : Nat) (st : WordsState) (k : Nat) (t : String) (j : Nat),
      List.lookup t st.seenWords = some j → j ≠ ci →
      List.lookup t (categoryWordsLoop ci st k ws).seenWords = some j := by
  induction ws with
  | nil =>
    intro ci st k t j hlk _
    exact hlk
  | cons w ws ih =>
    intro ci st k t j hlk hj
    exact ih ci _ (k + 1) t j (categoryWordStep_lookup ci st k w t j hlk hj) hj

theorem validateCategoryWords_lookup (v : Option JValue) (ci : Nat)
    (seen : List (String × Nat)) (pool : List String) (t : String) (j : Nat)
    (hlk : List.lookup t seen = some j) (hj : j ≠ ci) :
    List.lookup t (validateCategoryWords v ci seen pool).2.1 = some j := by
  rcases v with _ | jv
  · exact hlk
  · cases jv with
    | arr ws =>
      simp only [validateCategoryWords]
      split
      · exact hlk
      · exact categoryWordsLoop_lookup ws ci _ 0 t j hlk hj
    | str s => exact hlk
    | obj fs => exact hlk
    | other => exact hlk

theorem processCategory_obj_words_result (st : CatState) (i : Nat)
    (fields : List (String × JValue)) :
    (processCategory st i (.obj fields)).seenWords =
      (validateCategoryWords (jGet fields "words") i st.seenWords st.words).2.1 ∧
    (processCategory st i (.obj fields)).words =
      (validateCategoryWords (jGet fields "words") i st.seenWords st.words).2.2 := by
  simp only [processCategory]
  constructor
  all_goals
    (repeat' split) <;>
      simp [apply_ite (fun u : CatState => u.seenWords),
        apply_ite (fun u : CatState => u.words), ite_self]

theorem processCategory_lookup (st : CatState) (i : Nat) (cat : JValue)
    (t : String) (j : Nat)
    (hlk : List.lookup t st.seenWords = some j) (hj : j ≠ i) :
    List.lookup t (processCategory st i cat).seenWords = some j := by
  cases cat with
  | obj fields =>
    rw [(processCategory_obj_words_result st i fields).1]
    exact validateCategoryWords_lookup _ i _ _ t j hlk hj
  | str s => exact hlk
  | arr es => exact hlk
  | other => exact hlk

theorem categoriesLoop_lookup (cats : List JValue) :
    ∀ (st : CatState) (i : Nat) (t : String) (j : Nat),
      List.lookup t st.seenWords = some j → j < i →
      List.lookup t (categoriesLoop st i cats).seenWords = some j := by
  induction cats with
  | nil =>
    intro st i t j hlk _
    exact hlk
  | cons cat cats ih =>
    intro st i t j hlk hj
    exact ih _ (i + 1) t j
      (processCategory_lookup st i cat t j hlk (Nat.ne_of_lt hj))
      (Nat.lt_succ_of_lt hj)

theorem categoryWordStep_collision (ci : Nat) (st : WordsState) (k : Nat)
    (s : String) (j : Nat)
    (hlen : (jsTrim s).length ≠ 0)
    (hlk : List.lookup (jsTrim s) st.seenWords = some j)
    (hj : j ≠ ci) :
    ValidationIssue.mk (fieldPath [.s "categories", .n ci, .s "words", .n k])
        ("Word \x27" ++ jsTrim s ++ "\x27 already assigned to category index " ++
          toString j ++ ".")
      ∈ (categoryWordStep ci st k (.str s)).issues := by
  simp only [categoryWordStep,
    apply_ite (fun u : WordsState => u.issues),
    apply_ite (fun u : WordsState => u.seenWords), ite_self]
  rw [if_neg hlen, hlk]
  simp only []
  rw [if_pos hj]
  simp

theorem categoryWordsLoop_collision (ws : List JValue) :
    ∀ (ci : Nat) (st : WordsState) (k0 k : Nat) (s : String) (j : Nat),
      ws[k]? = some (.str s) →
      (jsTrim s).length ≠ 0 →
      List.lookup (jsTrim s) st.seenWords = some j →
      j ≠ ci →
      ValidationIssue.mk (fieldPath [.s "categories", .n ci, .s "words", .n (k0 + k)])
          ("Word \x27" ++ jsTrim s ++ "\x27 already assigned to category index " ++
            toString j ++ ".")
        ∈ (categoryWordsLoop ci st k0 ws).issues := by
  induction ws with
  | nil =>
    intro ci st k0 k s j hk
    simp at hk
  | cons w ws ih =>
    intro ci st k0 k s j hk hlen hlk hj
    cases k with
    | zero =>
      have hw : w = .str s := by simpa using hk
      subst hw
      have hstep := categoryWordStep_collision ci st k0 s j hlen hlk hj
      exact categoryWordsLoop_issues_mono ws ci _ (k0 + 1) _ hstep
    | succ k =>
      have hk2 : ws[k]? = some (.str s) := by simpa using hk
      have hpres := categoryWordStep_lookup ci st k0 w (jsTrim s) j hlk hj
      have hrec := ih ci (categoryWordStep ci st k0 w) (k0 + 1) k s j hk2 hlen hpres hj
      rw [show k0 + (k + 1) = (k0 + 1) + k by omega]
      exact hrec

theorem validateCategoryWords_collision (ws : List JValue) (ci : Nat)
    (seen : List (String × Nat)) (pool : List String) (k : Nat) (s : String)
    (j : Nat)
    (hlen4 : ws.length = 4)
    (hk : ws[k]? = some (.str s))
    (hlen : (jsTrim s).length ≠ 0)
    (hlk : List.lookup (jsTrim s) seen = some j)
    (hj : j ≠ ci) :
    ValidationIssue.mk (fieldPath [.s "categories", .n ci, .s "words", .n k])
        ("Word \x27" ++ jsTrim s ++ "\x27 already assigned to category index " ++
          toString j ++ ".")
      ∈ (validateCategoryWords (some (.arr ws)) ci seen pool).1 := by
  simp only [validateCategoryWords]
  rw [if_neg (not_ne_iff.mpr hlen4)]
  have hrec := categoryWordsLoop_collision ws ci (WordsState.mk [] [] seen pool)
    0 k s j hk hlen hlk hj
  rw [Nat.zero_add] at hrec
  exact hrec

theorem processCategory_obj_wordsIssues (st : CatState) (i : Nat)
    (fields : List (String × JValue)) (x : ValidationIssue)
    (hx : x ∈ (validateCategoryWords (jGet fields "words") i st.seenWords st.words).1) :
    x ∈ (processCategory st i (.obj fields)).issues := by
  simp only [processCategory]
  (repeat' split) <;>
    simp_all [apply_ite (fun u : CatState => u.issues),
      apply_ite (fun u : CatState => u.seenWords),
      apply_ite (fun u : CatState => u.words), ite_self, List.mem_append]

theorem processCategory_issues_mono (st : CatState) (i : Nat) (cat : JValue)
    (x : ValidationIssue) (hx : x ∈ st.issues) :
    x ∈ (processCategory st i cat).issues := by
  cases cat with
  | obj fields =>
    simp only [processCategory]
    (repeat' split) <;>
      simp_all [apply_ite (fun u : CatState => u.issues), ite_self,
        List.mem_append]
  | str s => exact List.mem_append_left _ hx
  | arr es => exact List.mem_append_left _ hx
  | other => exact List.mem_append_left _ hx

theorem categoriesLoop_issues_mono (cats : List JValue) :
    ∀ (st : CatState) (i : Nat) (x : ValidationIssue),
      x ∈ st.issues → x ∈ (categoriesLoop st i cats).issues := by
  induction cats with
  | nil =>
    intro st i x hx
    exact hx
  | cons cat cats ih =>
    intro st i x hx
    exact ih _ (i + 1) x (processCategory_issues_mono st i cat x hx)

theorem mem_ite_append {a : Type} (x : a) (A B : List a) (c : Prop)
    [Decidable c] (hx : x ∈ A) : x ∈ (if c then A ++ B else A) := by
  split
  · exact List.mem_append_left _ hx
  · exact hx

theorem validateCategories_issues_sup (cats : List JValue) (x : ValidationIssue)
    (hx : x ∈ (categoriesLoop
      (CatState.mk
        (if cats.length ≠ 4 then
          [ValidationIssue.mk "categories"
            ("Expected exactly 4 categories, received " ++ toString cats.length ++ ".")]
        else []) [] [] [] []) 0 cats).issues) :
    x ∈ (validateCategories (some (.arr cats))).1 := by
  simp only [validateCategories]
  apply List.mem_append_left
  exact mem_ite_append x _ _ _ hx

theorem validatePuzzle_cat_issues (fields : List (String × JValue))
    (context : ValidationContext) (x : ValidationIssue)
    (hx : x ∈ (validateCategories (jGet fields "categories")).1) :
    x ∈ validatePuzzle (.obj fields) context := by
  simp only [validatePuzzle]
  exact List.mem_append_left _ (List.mem_append_left _ (List.mem_append_right _ hx))

/-- **C9**: in a document whose `categories` entry `i` is a record with a
4-element words array whose entry `k` trims to a non-empty word that the
pass over the first `i` categories has attributed to an earlier category
index `j < i`, `validatePuzzle` reports the collision at position `k` of
category `i`, naming index `j`, and after the whole pass the word is
still attributed to index `j`. -/
theorem c9_cross_category_collision
    (fields : List (String × JValue)) (cats : List JValue)
    (context : ValidationContext)
    (i j k : Nat) (catFields : List (String × JValue)) (ws : List JValue)
    (w : String)
    (hcats : jGet fields "categories" = some (.arr cats))
    (hji : j < i)
    (hcat : cats[i]? = some (.obj catFields))
    (hws : jGet catFields "words" = some (.arr ws))
    (hlen4 : ws.length = 4)
    (hk : ws[k]? = some (.str w))
    (hlen : (jsTrim w).length ≠ 0)
    (hseen : List.lookup (jsTrim w)
      (categoriesLoop
        (CatState.mk
          (if cats.length ≠ 4 then
            [ValidationIssue.mk "categories"
              ("Expected exactly 4 categories, received " ++ toString cats.length ++ ".")]
          else []) [] [] [] []) 0 (cats.take i)).seenWords = some j) :
    ValidationIssue.mk (fieldPath [.s "categories", .n i, .s "words", .n k])
        ("Word \x27" ++ jsTrim w ++ "\x27 already assigned to category index " ++
          toString j ++ ".")
      ∈ validatePuzzle (.obj fields) context ∧
    List.lookup (jsTrim w)
      (categoriesLoop
        (CatState.mk
          (if cats.length ≠ 4 then
            [ValidationIssue.mk "categories"
              ("Expected exactly 4 categories, received " ++ toString cats.length ++ ".")]
          else []) [] [] [] []) 0 cats).seenWords = some j := by
  rcases List.getElem?_eq_some.mp hcat with ⟨hilt, hgetel⟩
  have htl : (cats.take i).length = i := by
    rw [List.length_take]
    omega
  have hsplit : cats = cats.take i ++ (.obj catFields) :: cats.drop (i + 1) := by
    conv_lhs => rw [← List.take_append_drop i cats]
    congr 1
    rw [List.drop_eq_getElem_cons hilt, hgetel]
  have hdecomp : ∀ init : CatState, categoriesLoop init 0 cats =
      categoriesLoop (categoriesLoop init 0 (cats.take i))
        i ((.obj catFields) :: cats.drop (i + 1)) := by
    intro init
    conv_lhs => rw [hsplit]
    rw [categoriesLoop_append, htl, Nat.zero_add]
  constructor
  · apply validatePuzzle_cat_issues fields context
    rw [hcats]
    apply validateCategories_issues_sup
    rw [hdecomp _]
    simp only [categoriesLoop]
    apply categoriesLoop_issues_mono
    apply processCategory_obj_wordsIssues
    rw [hws]
    exact validateCategoryWords_collision ws i _ _ k w j hlen4 hk hlen hseen
      (Nat.ne_of_lt hji)
  · rw [hdecomp _]
    simp only [categoriesLoop]
    apply categoriesLoop_lookup
    · exact processCategory_lookup _ i _ (jsTrim w) j hseen (Nat.ne_of_lt hji)
    · exact Nat.lt_succ_of_lt hji

/-- Witness for C9: in the example document the word `A` of category 0
reappears as word 0 of category 2; the collision is reported there naming
index 0, and `A` stays attributed to index 0 after the whole pass. -/
theorem c9_cross_category_collision_witness :
    ValidationIssue.mk (fieldPath [.s "categories", .n 2, .s "words", .n 0])
        ("Word \x27" ++ jsTrim "A" ++ "\x27 already assigned to category index " ++
          toString 0 ++ ".")
      ∈ validatePuzzle (.obj exFieldsCollide) ⟨none⟩ ∧
    List.lookup (jsTrim "A")
      (categoriesLoop
        (CatState.mk
          (if exCatsCollide.length ≠ 4 then
            [ValidationIssue.mk "categories"
              ("Expected exactly 4 categories, received " ++
                toString exCatsCollide.length ++ ".")]
          else []) [] [] [] []) 0 exCatsCollide).seenWords = some 0 :=
  c9_cross_category_collision exFieldsCollide exCatsCollide ⟨none⟩ 2 0 0
    [("id", .str "c3"), ("title", .str "T3"), ("color", .str "blue"),
     ("words", .arr [.str "A", .str "J", .str "K", .str "L"])]
    [.str "A", .str "J", .str "K", .str "L"] "A"
    rfl (by decide) rfl rfl rfl rfl (by decide) (by decide)

theorem categoryWordStep_globalWords_trim (ci : Nat) (st : WordsState) (k : Nat)
    (w : JValue) (hinv : ∀ x ∈ st.globalWords, jsTrim x = x) :
    ∀ x ∈ (categoryWordStep ci st k w).globalWords, jsTrim x = x := by
  intro x hx
  cases w with
  | str s =>
    simp only [categoryWordStep,
      apply_ite (fun u : WordsState => u.globalWords), ite_self] at hx
    repeat' split at hx
    all_goals
      first
      | exact hinv x hx
      | (rcases (mem_insertSet _ _ _).mp hx with h | rfl
         · exact hinv x h
         · exact jsTrim_idem s)
  | arr es => exact hinv x hx
  | obj fs => exact hinv x hx
  | other => exact hinv x hx

theorem categoryWordsLoop_globalWords_trim (ws : List JValue) :
    ∀ (ci : Nat) (st : WordsState) (k : Nat),
      (∀ x ∈ st.globalWords, jsTrim x = x) →
      ∀ x ∈ (categoryWordsLoop ci st k ws).globalWords, jsTrim x = x := by
  induction ws with
  | nil =>
    intro ci st k hinv
    exact hinv
  | cons w ws ih =>
    intro ci st k hinv
    exact ih ci _ (k + 1) (categoryWordStep_globalWords_trim ci st k w hinv)

theorem validateCategoryWords_globalWords_trim (v : Option JValue) (ci : Nat)
    (seen : List (String × Nat)) (pool : List String)
    (hinv : ∀ x ∈ pool, jsTrim x = x) :
    ∀ x ∈ (validateCategoryWords v ci seen pool).2.2, jsTrim x = x := by
  rcases v with _ | jv
  · exact hinv
  · cases jv with
    | arr ws =>
      simp only [validateCategoryWords]
      split
      · exact hinv
      · exact categoryWordsLoop_globalWords_trim ws ci _ 0 hinv
    | str s => exact hinv
    | obj fs => exact hinv
    | other => exact hinv

theorem processCategory_words_trim (st : CatState) (i : Nat) (cat : JValue)
    (hinv : ∀ x ∈ st.words, jsTrim x = x) :
    ∀ x ∈ (processCategory st i cat).words, jsTrim x = x := by
  cases cat with
  | obj fields =>
    rw [(processCategory_obj_words_result st i fields).2]
    exact validateCategoryWords_globalWords_trim _ i _ _ hinv
  | str s => exact hinv
  | arr es => exact hinv
  | other => exact hinv

theorem categoriesLoop_words_trim (cats : List JValue) :
    ∀ (st : CatState) (i : Nat),
      (∀ x ∈ st.words, jsTrim x = x) →
      ∀ x ∈ (categoriesLoop st i cats).words, jsTrim x = x := by
  induction cats with
  | nil =>
    intro st i hinv
    exact hinv
  | cons cat cats ih =>
    intro st i hinv
    exact ih _ (i + 1) (processCategory_words_trim st i cat hinv)

theorem validateCategories_pool_trim (v : Option JValue) :
    ∀ x ∈ (validateCategories v).2, jsTrim x = x := by
  rcases v with _ | jv
  · intro x hx
    exact absurd hx (List.not_mem_nil x)
  · cases jv with
    | arr cats =>
      simp only [validateCategories]
      exact categoriesLoop_words_trim cats _ 0 (fun x hx => absurd hx (List.not_mem_nil x))
    | str s => intro x hx; exact absurd hx (List.not_mem_nil x)
    | obj fs => intro x hx; exact absurd hx (List.not_mem_nil x)
    | other => intro x hx; exact absurd hx (List.not_mem_nil x)

theorem startGridEntryStep_seen_mono (st : GridState) (k : Nat) (e : JValue)
    (y : String) (hy : y ∈ st.seen) : y ∈ (startGridEntryStep st k e).seen := by
  cases e with
  | str s =>
    simp only [startGridEntryStep,
      apply_ite (fun u : GridState => u.seen), ite_self]
    repeat' split
    all_goals simp [hy]
  | arr es => exact hy
  | obj fs => exact hy
  | other => exact hy

theorem startGridLoop_seen_mono (es : List JValue) :
    ∀ (st : GridState) (k : Nat) (y : String),
      y ∈ st.seen → y ∈ (startGridLoop st k es).seen := by
  induction es with
  | nil =>
    intro st k y hy
    exact hy
  | cons e es ih =>
    intro st k y hy
    exact ih _ (k + 1) y (startGridEntryStep_seen_mono st k e y hy)

theorem startGridEntryStep_seen_add (st : GridState) (k : Nat) (s : String)
    (hlen : (jsTrim s).length ≠ 0) :
    jsTrim s ∈ (startGridEntryStep st k (.str s)).seen := by
  simp only [startGridEntryStep,
    apply_ite (fun u : GridState => u.seen), ite_self]
  rw [if_neg hlen]
  split
  · next h => exact (contains_iff _ _).mp h
  · simp

theorem startGridLoop_seen_of_mem (es : List JValue) :
    ∀ (st : GridState) (k0 k : Nat) (s : String),
      es[k]? = some (.str s) → (jsTrim s).length ≠ 0 →
      jsTrim s ∈ (startGridLoop st k0 es).seen := by
  induction es with
  | nil =>
    intro st k0 k s hk
    simp at hk
  | cons e es ih =>
    intro st k0 k s hk hlen
    cases k with
    | zero =>
      have he : e = .str s := by simpa using hk
      subst he
      exact startGridLoop_seen_mono es _ (k0 + 1) _
        (startGridEntryStep_seen_add st k0 s hlen)
    | succ k =>
      have hk2 : es[k]? = some (.str s) := by simpa using hk
      exact ih _ (k0 + 1) k s hk2 hlen

theorem startGridEntryStep_whitespace_dup (st : GridState) (k : Nat) (s : String)
    (hlen : (jsTrim s).length ≠ 0)
    (hws : jsTrim s ≠ s)
    (hseen : jsTrim s ∈ st.seen) :
    (ValidationIssue.mk (fieldPath [.s "startGrid", .n k])
        "startGrid entries should not have leading or trailing whitespace."
      ∈ (startGridEntryStep st k (.str s)).issues) ∧
    (ValidationIssue.mk (fieldPath [.s "startGrid", .n k])
        ("Duplicate word \x27" ++ jsTrim s ++ "\x27 in startGrid.")
      ∈ (startGridEntryStep st k (.str s)).issues) := by
  have hcont : st.seen.contains (jsTrim s) = true := (contains_iff _ _).mpr hseen
  refine ⟨?_, ?_⟩ <;>
    · simp only [startGridEntryStep,
        apply_ite (fun u : GridState => u.seen),
        apply_ite (fun u : GridState => u.issues), ite_self]
      rw [if_neg hlen, if_pos hws]
      split_ifs <;>
        first
        | exact absurd hcont (by assumption)
        | simp

theorem validateStartingOrder_issues_sup (entries : List JValue)
    (expectedWords : List String) (x : ValidationIssue)
    (hx : x ∈ (startGridLoop (GridState.mk [] []) 0 entries).issues) :
    x ∈ validateStartingOrder (some (.arr entries)) expectedWords := by
  simp only [validateStartingOrder]
  repeat' split
  all_goals simp [hx]

theorem categoryWordStep_local_mono (ci : Nat) (st : WordsState) (k : Nat)
    (w : JValue) (y : String) (hy : y ∈ st.localWords) :
    y ∈ (categoryWordStep ci st k w).localWords := by
  cases w with
  | str s =>
    simp only [categoryWordStep,
      apply_ite (fun u : WordsState => u.localWords), ite_self]
    repeat' split
    all_goals simp [hy]
  | arr es => exact hy
  | obj fs => exact hy
  | other => exact hy

theorem categoryWordsLoop_local_mono (ws : List JValue) :
    ∀ (ci : Nat) (st : WordsState) (k : Nat) (y : String),
      y ∈ st.localWords → y ∈ (categoryWordsLoop ci st k ws).localWords := by
  induction ws with
  | nil =>
    intro ci st k y hy
    exact hy
  | cons w ws ih =>
    intro ci st k y hy
    exact ih ci _ (k + 1) y (categoryWordStep_local_mono ci st k w y hy)

theorem categoryWordStep_local_add (ci : Nat) (st : WordsState) (k : Nat)
    (s : String) (hlen : (jsTrim s).length ≠ 0) :
    jsTrim s ∈ (categoryWordStep ci st k (.str s)).localWords := by
  simp only [categoryWordStep,
    apply_ite (fun u : WordsState => u.localWords), ite_self]
  rw [if_neg hlen]
  repeat' split
  all_goals
    first
    | exact (contains_iff _ _).mp (by assumption)
    | simp

theorem categoryWordsLoop_local_of_mem (ws : List JValue) :
    ∀ (ci : Nat) (st : WordsState) (k0 k : Nat) (s : String),
      ws[k]? = some (.str s) → (jsTrim s).length ≠ 0 →
      jsTrim s ∈ (categoryWordsLoop ci st k0 ws).localWords := by
  induction ws with
  | nil =>
    intro ci st k0 k s hk
    simp at hk
  | cons w ws ih =>
    intro ci st k0 k s hk hlen
    cases k with
    | zero =>
      have he : w = .str s := by simpa using hk
      subst he
      exact categoryWordsLoop_local_mono ws ci _ (k0 + 1) _
        (categoryWordStep_local_add ci st k0 s hlen)
    | succ k =>
      have hk2 : ws[k]? = some (.str s) := by simpa using hk
      exact ih ci _ (k0 + 1) k s hk2 hlen

theorem categoryWordStep_whitespace_dup (ci : Nat) (st : WordsState) (k : Nat)
    (s : String)
    (hlen : (jsTrim s).length ≠ 0)
    (hws : jsTrim s ≠ s)
    (hloc : jsTrim s ∈ st.localWords) :
    (ValidationIssue.mk (fieldPath [.s "categories", .n ci, .s "words", .n k])
        "Word should not contain leading or trailing whitespace."
      ∈ (categoryWordStep ci st k (.str s)).issues) ∧
    (ValidationIssue.mk (fieldPath [.s "categories", .n ci, .s "words", .n k])
        ("Duplicate word \x27" ++ jsTrim s ++ "\x27 within category.")
      ∈ (categoryWordStep ci st k (.str s)).issues) := by
  have hcont : st.localWords.contains (jsTrim s) = true := (contains_iff _ _).mpr hloc
  refine ⟨?_, ?_⟩ <;>
    · simp only [categoryWordStep,
        apply_ite (fun u : WordsState => u.issues),
        apply_ite (fun u : WordsState => u.localWords),
        apply_ite (fun u : WordsState => u.seenWords), ite_self]
      rw [if_neg hlen, if_pos hws]
      repeat' split
      all_goals
        first
        | exact absurd hcont (by assumption)
        | simp

theorem validateStartingOrder_whitespace_dup (entries : List JValue)
    (expectedWords : List String) (k1 k2 : Nat) (w1 w2 : String)
    (hk12 : k1 < k2)
    (h1 : entries[k1]? = some (.str w1))
    (h2 : entries[k2]? = some (.str w2))
    (htr : jsTrim w2 = jsTrim w1)
    (hws : jsTrim w2 ≠ w2)
    (hlen : (jsTrim w2).length ≠ 0) :
    (ValidationIssue.mk (fieldPath [.s "startGrid", .n k2])
        "startGrid entries should not have leading or trailing whitespace."
      ∈ validateStartingOrder (some (.arr entries)) expectedWords) ∧
    (ValidationIssue.mk (fieldPath [.s "startGrid", .n k2])
        ("Duplicate word \x27" ++ jsTrim w2 ++ "\x27 in startGrid.")
      ∈ validateStartingOrder (some (.arr entries)) expectedWords) := by
  rcases List.getElem?_eq_some.mp h2 with ⟨hk2lt, hget2⟩
  have hlen1 : (jsTrim w1).length ≠ 0 := by
    rw [← htr]
    exact hlen
  have htk : (entries.take k2).length = k2 := by
    rw [List.length_take]
    omega
  have hsplit : entries = entries.take k2 ++ (.str w2) :: entries.drop (k2 + 1) := by
    conv_lhs => rw [← List.take_append_drop k2 entries]
    congr 1
    rw [List.drop_eq_getElem_cons hk2lt, hget2]
  have hdecomp : ∀ st : GridState, startGridLoop st 0 entries =
      startGridLoop (startGridLoop st 0 (entries.take k2)) k2
        ((.str w2) :: entries.drop (k2 + 1)) := by
    intro st
    conv_lhs => rw [hsplit]
    rw [startGridLoop_append, htk, Nat.zero_add]
  have hseenpre : jsTrim w1 ∈
      (startGridLoop (GridState.mk [] []) 0 (entries.take k2)).seen :=
    startGridLoop_seen_of_mem (entries.take k2) _ 0 k1 w1
      (by rw [List.getElem?_take_of_lt hk12]; exact h1) hlen1
  have hseen2 : jsTrim w2 ∈
      (startGridLoop (GridState.mk [] []) 0 (entries.take k2)).seen := by
    rw [htr]
    exact hseenpre
  have hdup := startGridEntryStep_whitespace_dup _ k2 w2 hlen hws hseen2
  constructor
  · apply validateStartingOrder_issues_sup
    rw [hdecomp _]
    simp only [startGridLoop]
    exact startGridLoop_issues_mono _ _ (k2 + 1) _ hdup.1
  · apply validateStartingOrder_issues_sup
    rw [hdecomp _]
    simp only [startGridLoop]
    exact startGridLoop_issues_mono _ _ (k2 + 1) _ hdup.2

theorem validateCategoryWords_whitespace_dup (ws : List JValue) (ci : Nat)
    (seen : List (String × Nat)) (pool : List String)
    (k1 k2 : Nat) (w1 w2 : String)
    (hlen4 : ws.length = 4)
    (hk12 : k1 < k2)
    (h1 : ws[k1]? = some (.str w1))
    (h2 : ws[k2]? = some (.str w2))
    (htr : jsTrim w2 = jsTrim w1)
    (hws : jsTrim w2 ≠ w2)
    (hlen : (jsTrim w2).length ≠ 0) :
    (ValidationIssue.mk (fieldPath [.s "categories", .n ci, .s "words", .n k2])
        "Word should not contain leading or trailing whitespace."
      ∈ (validateCategoryWords (some (.arr ws)) ci seen pool).1) ∧
    (ValidationIssue.mk (fieldPath [.s "categories", .n ci, .s "words", .n k2])
        ("Duplicate word \x27" ++ jsTrim w2 ++ "\x27 within category.")
      ∈ (validateCategoryWords (some (.arr ws)) ci seen pool).1) := by
  rcases List.getElem?_eq_some.mp h2 with ⟨hk2lt, hget2⟩
  have hlen1 : (jsTrim w1).length ≠ 0 := by
    rw [← htr]
    exact hlen
  have htk : (ws.take k2).length = k2 := by
    rw [List.length_take]
    omega
  have hsplit : ws = ws.take k2 ++ (.str w2) :: ws.drop (k2 + 1) := by
    conv_lhs => rw [← List.take_append_drop k2 ws]
    congr 1
    rw [List.drop_eq_getElem_cons hk2lt, hget2]
  have hdecomp : ∀ st : WordsState, categoryWordsLoop ci st 0 ws =
      categoryWordsLoop ci (categoryWordsLoop ci st 0 (ws.take k2)) k2
        ((.str w2) :: ws.drop (k2 + 1)) := by
    intro st
    conv_lhs => rw [hsplit]
    rw [categoryWordsLoop_append, htk, Nat.zero_add]
  have hlocpre : jsTrim w1 ∈
      (categoryWordsLoop ci (WordsState.mk [] [] seen pool) 0 (ws.take k2)).localWords :=
    categoryWordsLoop_local_of_mem (ws.take k2) ci _ 0 k1 w1
      (by rw [List.getElem?_take_of_lt hk12]; exact h1) hlen1
  have hloc2 : jsTrim w2 ∈
      (categoryWordsLoop ci (WordsState.mk [] [] seen pool) 0 (ws.take k2)).localWords := by
    rw [htr]
    exact hlocpre
  have hdup := categoryWordStep_whitespace_dup ci _ k2 w2 hlen hws hloc2
  have hwrap : ∀ x : ValidationIssue,
      x ∈ (categoryWordsLoop ci (WordsState.mk [] [] seen pool) 0 ws).issues →
      x ∈ (validateCategoryWords (some (.arr ws)) ci seen pool).1 := by
    intro x hx
    simp only [validateCategoryWords]
    rw [if_neg (not_ne_iff.mpr hlen4)]
    exact hx
  constructor
  · apply hwrap
    rw [hdecomp _]
    simp only [categoryWordsLoop]
    exact categoryWordsLoop_issues_mono _ ci _ (k2 + 1) _ hdup.1
  · apply hwrap
    rw [hdecomp _]
    simp only [categoryWordsLoop]
    exact categoryWordsLoop_issues_mono _ ci _ (k2 + 1) _ hdup.2

/-- **C10**: the duplicate detection and startGrid membership comparisons
operate on the trimmed form of each entry: (1) the word pool handed to the
startGrid set-equality check contains only trimmed words; (2) a startGrid
entry whose trimmed form was already seen and which differs from its own
trimmed form is reported both for whitespace and as a duplicate; (3) a
category word whose trimmed form equals an earlier word of the same
category and which differs from its own trimmed form is reported both for
whitespace and as an in-category duplicate. -/
theorem c10_trimmed_comparisons :
    (∀ (v : Option JValue) (x : String),
      x ∈ (validateCategories v).2 → jsTrim x = x) ∧
    (∀ (entries : List JValue) (expectedWords : List String)
        (k1 k2 : Nat) (w1 w2 : String),
      k1 < k2 →
      entries[k1]? = some (.str w1) →
      entries[k2]? = some (.str w2) →
      jsTrim w2 = jsTrim w1 →
      jsTrim w2 ≠ w2 →
      (jsTrim w2).length ≠ 0 →
      (ValidationIssue.mk (fieldPath [.s "startGrid", .n k2])
          "startGrid entries should not have leading or trailing whitespace."
        ∈ validateStartingOrder (some (.arr entries)) expectedWords) ∧
      (ValidationIssue.mk (fieldPath [.s "startGrid", .n k2])
          ("Duplicate word \x27" ++ jsTrim w2 ++ "\x27 in startGrid.")
        ∈ validateStartingOrder (some (.arr entries)) expectedWords)) ∧
    (∀ (ws : List JValue) (ci : Nat) (seen : List (String × Nat))
        (pool : List String) (k1 k2 : Nat) (w1 w2 : String),
      ws.length = 4 →
      k1 < k2 →
      ws[k1]? = some (.str w1) →
      ws[k2]? = some (.str w2) →
      jsTrim w2 = jsTrim w1 →
      jsTrim w2 ≠ w2 →
      (jsTrim w2).length ≠ 0 →
      (ValidationIssue.mk (fieldPath [.s "categories", .n ci, .s "words", .n k2])
          "Word should not contain leading or trailing whitespace."
        ∈ (validateCategoryWords (some (.arr ws)) ci seen pool).1) ∧
      (ValidationIssue.mk (fieldPath [.s "categories", .n ci, .s "words", .n k2])
          ("Duplicate word \x27" ++ jsTrim w2 ++ "\x27 within category.")
        ∈ (validateCategoryWords (some (.arr ws)) ci seen pool).1)) :=
  ⟨fun v x hx => validateCategories_pool_trim v x hx,
   fun entries expectedWords k1 k2 w1 w2 hk12 h1 h2 htr hws hlen =>
     validateStartingOrder_whitespace_dup entries expectedWords k1 k2 w1 w2
       hk12 h1 h2 htr hws hlen,
   fun ws ci seen pool k1 k2 w1 w2 hlen4 hk12 h1 h2 htr hws hlen =>
     validateCategoryWords_whitespace_dup ws ci seen pool k1 k2 w1 w2
       hlen4 hk12 h1 h2 htr hws hlen⟩

/-- Witness for C10: the well-formed example pool word `A` is trimmed; the
startGrid `["A", " A"]` reports entry 1 both for whitespace and as a
duplicate of the trimmed `A`; the category words
`["A", " A", "B", "C"]` report word 1 both for whitespace and as an
in-category duplicate. -/
theorem c10_trimmed_comparisons_witness :
    jsTrim "A" = "A" ∧
    ((ValidationIssue.mk (fieldPath [.s "startGrid", .n 1])
        "startGrid entries should not have leading or trailing whitespace."
      ∈ validateStartingOrder (some (.arr [.str "A", .str " A"])) []) ∧
     (ValidationIssue.mk (fieldPath [.s "startGrid", .n 1])
        ("Duplicate word \x27" ++ jsTrim " A" ++ "\x27 in startGrid.")
      ∈ validateStartingOrder (some (.arr [.str "A", .str " A"])) [])) ∧
    ((ValidationIssue.mk (fieldPath [.s "categories", .n 0, .s "words", .n 1])
        "Word should not contain leading or trailing whitespace."
      ∈ (validateCategoryWords
          (some (.arr [.str "A", .str " A", .str "B", .str "C"])) 0 [] []).1) ∧
     (ValidationIssue.mk (fieldPath [.s "categories", .n 0, .s "words", .n 1])
        ("Duplicate word \x27" ++ jsTrim " A" ++ "\x27 within category.")
      ∈ (validateCategoryWords
          (some (.arr [.str "A", .str " A", .str "B", .str "C"])) 0 [] []).1)) :=
  ⟨c10_trimmed_comparisons.1 (some (.arr (exCatSpecs.map exCatJson))) "A" (by decide),
   c10_trimmed_comparisons.2.1 [.str "A", .str " A"] [] 0 1 "A" " A"
     (by decide) rfl rfl (by decide) (by decide) (by decide),
   c10_trimmed_comparisons.2.2 [.str "A", .str " A", .str "B", .str "C"] 0 [] []
     0 1 "A" " A" rfl (by decide) rfl rfl (by decide) (by decide) (by decide)⟩
